import Mathlib

/-!
Shallow embedding of `src/sudoku.py` (Trypios/sudoku-solver).

Modelling conventions:
* Python `set`s of the digits 1–9 are modelled as strictly ascending
  duplicate-free `List Nat`, matching CPython's iteration order for the
  sets this program builds (hash(i) = i for small ints, tables large
  enough that slots 1..9 are occupied in order).
* In-place mutation becomes explicit state passing: a cell is identified
  by its position `(r, c)`, the board is a `List (List Cell)`, and the
  `unsolved_cells` worklist holds positions.
* `raise ConflictError` becomes the `Except Unit` monad's `.error ()`.
* The two unbounded recursions (`while reducing` and the backtracking
  functions, whose recursion Lean cannot see as structural because the
  recursive call receives a state returned by an earlier call) take an
  explicit fuel argument; the fuel supplied by the wrappers is proved
  sufficient below (`reduce_cells_aux_fuel_ge`, `brute_force_fuel_ge`,
  `brute_force_magic_fuel_ge`), so the embedding agrees with the
  unbounded Python loops.
-/

namespace SudokuPy

/-- One of the 81 sudoku cells (`class Cell`).  `possib` is the Python
set `self.possib`, kept as an ascending duplicate-free list. -/
structure Cell where
  r_pos : Nat
  c_pos : Nat
  value : Nat
  possib : List Nat
deriving DecidableEq, Repr

/-- The digits 1..9 in ascending order. -/
def digits : List Nat := (List.range 9).map (· + 1)

/-- `Cell.__init__`: `possib = {v + 1 for v in range(9) if v + 1 != value}`. -/
def mkCell (r c v : Nat) : Cell :=
  ⟨r, c, v, digits.filter (fun d => d ≠ v)⟩

/-- `Cell.is_solved`: true iff the value is not 0. -/
def Cell.is_solved (c : Cell) : Bool := c.value ≠ 0

/-- `Cell.set_value(value, certainty)`. -/
def Cell.set_value (c : Cell) (v : Nat) (certainty : Bool) : Cell :=
  { c with value := v, possib := if certainty then [] else c.possib }

/-- `Cell.reduce_possibilities(group)`.  Walks the group in iteration
order; `self == other_value` (the `int` branch of `Cell.__eq__`, i.e.
`self.value == other_value`) raises `ConflictError`; a removal sets the
`is_reduced` flag; whenever exactly one possibility is left it is
committed with certainty and the loop breaks. -/
def Cell.reduce_possibilities (c : Cell) (group : List Nat) (is_reduced : Bool) :
    Except Unit (Cell × Bool) :=
  match group with
  | [] => .ok (c, is_reduced)
  | v :: rest =>
    if c.value = v then .error ()
    else
      let st := if v ∈ c.possib
        then ({ c with possib := c.possib.erase v }, true)
        else (c, is_reduced)
      if st.1.possib.length = 1 then
        .ok (st.1.set_value (st.1.possib.headD 0) true, st.2)
      else
        st.1.reduce_possibilities rest st.2

abbrev Grid := List (List Cell)
abbrev Pos := Nat × Nat

def dummyCell : Cell := ⟨0, 0, 0, []⟩

def getCell (g : Grid) (p : Pos) : Cell := (g.getD p.1 []).getD p.2 dummyCell

def setCell (g : Grid) (p : Pos) (c : Cell) : Grid :=
  g.set p.1 ((g.getD p.1 []).set p.2 c)

/-- The whole board state: the 9×9 grid plus the `unsolved_cells` list
(cell identity is its position). -/
structure Sudoku where
  grid : Grid
  unsolved_cells : List Pos
deriving DecidableEq, Repr

/-- `Sudoku.__parse_grid`: cell `(r, c)` receives `grid[9*r + c]`. -/
def parse_grid (l : List Nat) : Grid :=
  (List.range 9).map fun r => (List.range 9).map fun c => mkCell r c (l.getD (9 * r + c) 0)

/-- All 81 positions in row-major order. -/
def allPositions : List Pos :=
  ((List.range 9).map fun r => (List.range 9).map fun c => (r, c)).flatten

/-- `Sudoku.__init__`: parse the grid and collect the unsolved cells in
row-major order. -/
def initSudoku (l : List Nat) : Sudoku :=
  let g := parse_grid l
  { grid := g
    unsolved_cells := allPositions.filter fun p => !(getCell g p).is_solved }

/-- Insert a value into an ascending duplicate-free list, keeping it
ascending and duplicate-free (the model of building a Python set). -/
def insDedup (v : Nat) : List Nat → List Nat
  | [] => [v]
  | x :: xs =>
    if v < x then v :: x :: xs
    else if v = x then x :: xs
    else x :: insDedup v xs

/-- Turn the multiset of collected peer values into the Python set they
form, iterated in ascending order. -/
def mkGroup (l : List Nat) : List Nat := l.foldr insDedup []

/-- Row part of `Sudoku.__constraining_values` (`cell is not target`
is object identity, i.e. a different column). -/
def rowConstraining (g : Grid) (r c : Nat) : List Nat :=
  ((List.range 9).filter fun c' => c' ≠ c ∧ (getCell g (r, c')).is_solved).map
    fun c' => (getCell g (r, c')).value

/-- Column part of `Sudoku.__constraining_values`. -/
def colConstraining (g : Grid) (r c : Nat) : List Nat :=
  ((List.range 9).filter fun r' => r' ≠ r ∧ (getCell g (r', c)).is_solved).map
    fun r' => (getCell g (r', c)).value

/-- 3×3-square part of `Sudoku.__constraining_values`. -/
def squareConstraining (g : Grid) (r c : Nat) : List Nat :=
  (((List.range 3).map fun i => (List.range 3).map fun j => (r / 3 * 3 + i, c / 3 * 3 + j)).flatten.filter
      fun p => ¬(p.1 = r ∧ p.2 = c) ∧ (getCell g p).is_solved).map
    fun p => (getCell g p).value

/-- The 16 knight offsets `r in [-2,-1,1,2] × c in [-2,-1,1,2]` in the
source's iteration order. -/
def knightOffsets : List (Int × Int) :=
  ([-2, -1, 1, 2] : List Int).flatMap fun dr =>
    ([-2, -1, 1, 2] : List Int).map fun dc => (dr, dc)

/-- Knight part of `Sudoku.__special_constraining_values`. -/
def knightConstraining (g : Grid) (r c : Nat) : List Nat :=
  knightOffsets.flatMap fun d =>
    let r' : Int := (r : Int) + d.1
    let c' : Int := (c : Int) + d.2
    if 0 ≤ r' ∧ r' ≤ 8 ∧ 0 ≤ c' ∧ c' ≤ 8 ∧ d.1.natAbs ≠ d.2.natAbs ∧
        (getCell g (r'.toNat, c'.toNat)).is_solved = true
    then [(getCell g (r'.toNat, c'.toNat)).value] else []

/-- Main-diagonal part of `Sudoku.__special_constraining_values`. -/
def mainDiagConstraining (g : Grid) : List Nat :=
  ((List.range 9).filter fun i => (getCell g (i, i)).is_solved).map
    fun i => (getCell g (i, i)).value

/-- Side-diagonal part of `Sudoku.__special_constraining_values`. -/
def sideDiagConstraining (g : Grid) : List Nat :=
  ((List.range 9).filter fun i => (getCell g (i, 8 - i)).is_solved).map
    fun i => (getCell g (i, 8 - i)).value

/-- `Sudoku.__special_constraining_values` (before the final set union,
which `constraining_values` performs with `mkGroup`). -/
def special_constraining_values (g : Grid) (r c : Nat) : List Nat :=
  knightConstraining g r c ++
  (if r = c then mainDiagConstraining g else []) ++
  (if r + c = 8 then sideDiagConstraining g else [])

/-- `Sudoku.__constraining_values`. -/
def constraining_values (g : Grid) (r c : Nat) (special : Bool) : List Nat :=
  mkGroup (rowConstraining g r c ++ colConstraining g r c ++ squareConstraining g r c ++
    (if special then special_constraining_values g r c else []))

/-- `Sudoku.__check_cell_possib`: the candidate value is absent from the
constraining values. -/
def check_cell_possib (g : Grid) (p : Pos) (v : Nat) (special : Bool) : Bool :=
  !((constraining_values g p.1 p.2 special).contains v)

/-- `Sudoku.__reduce_cell` (its unused `certainty` parameter is dropped):
solved cells are skipped (Python returns `None`, falsy in `any`). -/
def reduce_cell (s : Sudoku) (p : Pos) (special : Bool) : Except Unit (Sudoku × Bool) :=
  let c := getCell s.grid p
  if c.is_solved then .ok (s, false)
  else
    match c.reduce_possibilities (constraining_values s.grid p.1 p.2 special) false with
    | .error e => .error e
    | .ok (c', flag) => .ok ({ s with grid := setCell s.grid p c' }, flag)

/-- `self.unsolved_cells.remove(cell)`: CPython removes the first element
that is the same object or compares equal under `Cell.__eq__` (both
solved with the same value; an unsolved element never compares equal). -/
def removeFirstMatch (g : Grid) (target : Pos) : List Pos → List Pos
  | [] => []
  | q :: qs =>
    if q = target ∨ ((getCell g q).is_solved ∧ (getCell g q).value = (getCell g target).value)
    then qs
    else q :: removeFirstMatch g target qs

/-- One `for cell in self.unsolved_cells` sweep of `__reduce_cells`,
with Python's live-list iteration: the loop index `i` advances by one
each step while a removal shortens the list in place.  The fuel is the
number of remaining loop steps; `sweep` supplies enough. -/
def sweepAux (special : Bool) : Nat → Sudoku → Nat → Bool → Except Unit (Sudoku × Bool)
  | 0, s, _, acc => .ok (s, acc)
  | fuel + 1, s, i, acc =>
    if i < s.unsolved_cells.length then
      let p := s.unsolved_cells.getD i (0, 0)
      match reduce_cell s p special with
      | .error e => .error e
      | .ok (s', flag) =>
        let s'' := if (getCell s'.grid p).is_solved
          then { s' with unsolved_cells := removeFirstMatch s'.grid p s'.unsolved_cells }
          else s'
        sweepAux special fuel s'' (i + 1) (acc || flag)
    else .ok (s, acc)

/-- One full sweep of the frontier; the returned flag is
`any(reducing)`. -/
def sweep (s : Sudoku) (special : Bool) : Except Unit (Sudoku × Bool) :=
  sweepAux special s.unsolved_cells.length s 0 false

/-- Total number of remaining possibilities on the board — the measure
that shrinks while the propagation loop keeps running. -/
def totalPossib (s : Sudoku) : Nat :=
  (s.grid.map fun row => (row.map fun c => c.possib.length).sum).sum

/-- The `while reducing` loop of `Sudoku.__reduce_cells`: stop when the
frontier is empty (`__all_solved`) or when a sweep removed nothing. -/
def reduce_cells_aux (special : Bool) : Nat → Sudoku → Except Unit Sudoku
  | 0, s => .ok s
  | fuel + 1, s =>
    if s.unsolved_cells.length = 0 then .ok s
    else
      match sweep s special with
      | .error e => .error e
      | .ok (s', flag) => if flag then reduce_cells_aux special fuel s' else .ok s'

/-- `Sudoku.__reduce_cells` (its unused `certainty` parameter is
dropped).  `totalPossib s + 1` rounds of fuel are proved sufficient
below. -/
def reduce_cells (s : Sudoku) (special : Bool) : Except Unit Sudoku :=
  reduce_cells_aux special (totalPossib s + 1) s

/-- The nine central positions (rows 3–5 × columns 3–5) in row-major
order, as produced by `Sudoku.__get_mid_square`. -/
def midSquarePositions : List Pos :=
  ((List.range 3).map fun i => (List.range 3).map fun j => (3 + i, 3 + j)).flatten

/-- One line (row, column or diagonal) of the central square passes
`__check_magic_square_state`: it is not the case that all 3 of its cells
are solved while their sum differs from 15. -/
def magicLine (g : Grid) (ps : List Pos) : Bool :=
  let vals := (ps.filter fun p => (getCell g p).is_solved).map fun p => (getCell g p).value
  !(vals.length = 3 ∧ vals.sum ≠ 15)

/-- `Sudoku.__check_magic_square_state`: every complete (3 solved cells)
row, column and diagonal of the central square must sum to 15. -/
def check_magic_square_state (g : Grid) : Bool :=
  ((List.range 3).all fun i => magicLine g ((List.range 3).map fun j => (3 + i, 3 + j))) &&
  ((List.range 3).all fun j => magicLine g ((List.range 3).map fun i => (3 + i, 3 + j))) &&
  magicLine g ((List.range 3).map fun i => (3 + i, 3 + i)) &&
  magicLine g ((List.range 3).map fun i => (3 + i, 3 + (2 - i)))

/-- The `for value in cell.possib` loop of
`Sudoku.__brute_force_magic_square`: accept a value only if the magic
state (checked before the assignment) and the special possibility check
pass; assign without certainty, recurse (`recur` is the next level of
the backtracking), and on failure undo by writing value 0 back. -/
def magicTry (recur : Grid → List Pos → Grid × List Pos × Bool) (p : Pos) :
    Grid → List Pos → List Nat → Grid × List Pos × Bool
  | g, ms, [] => (g, ms, false)
  | g, ms, v :: vs =>
    if check_magic_square_state g && check_cell_possib g p v true then
      match recur (setCell g p ((getCell g p).set_value v false)) ms with
      | (g2, ms2, true) => (g2, ms2, true)
      | (g2, ms2, false) =>
        magicTry recur p (setCell g2 p { getCell g2 p with value := 0 }) ms2 vs
    else magicTry recur p g ms vs

/-- `Sudoku.__brute_force_magic_square`.  Fuel bounds the recursion
depth; `solve_magic_square` supplies `length + 1`, proved sufficient
below. -/
def brute_force_magic_square : Nat → Grid → List Pos → Grid × List Pos × Bool
  | 0, g, ms => (g, ms, false)
  | fuel + 1, g, ms =>
    match ms with
    | [] => (g, [], true)
    | p :: rest =>
      match magicTry (brute_force_magic_square fuel) p g rest (getCell g p).possib with
      | (g', ms', true) => (g', ms', true)
      | (g', ms', false) => (g', p :: ms', false)

/-- `Sudoku.__solve_magic_square`: collect the still-unsolved central
cells in row-major order, run the magic backtracking, discard its
boolean result. -/
def solve_magic_square (s : Sudoku) : Sudoku :=
  let ms := midSquarePositions.filter fun p => !(getCell s.grid p).is_solved
  { s with grid := (brute_force_magic_square (ms.length + 1) s.grid ms).1 }

/-- The `for value in cell.possib` loop of `Sudoku.__brute_force`
(`recur` is the next level of the backtracking). -/
def bfTry (recur : Sudoku → Sudoku × Bool) (p : Pos) (special : Bool) :
    Sudoku → List Nat → Sudoku × Bool
  | s, [] => (s, false)
  | s, v :: vs =>
    if check_cell_possib s.grid p v special then
      match recur { s with grid := setCell s.grid p ((getCell s.grid p).set_value v false) } with
      | (s2, true) => (s2, true)
      | (s2, false) =>
        bfTry recur p special { s2 with grid := setCell s2.grid p { getCell s2.grid p with value := 0 } } vs
    else bfTry recur p special s vs

/-- `Sudoku.__brute_force`.  Fuel bounds the recursion depth; `solve`
supplies `length + 1`, proved sufficient below. -/
def brute_force : Nat → Sudoku → Bool → Sudoku × Bool
  | 0, s, _ => (s, false)
  | fuel + 1, s, special =>
    match s.unsolved_cells with
    | [] => (s, true)
    | p :: rest =>
      match bfTry (brute_force fuel · special) p special { s with unsolved_cells := rest } (getCell s.grid p).possib with
      | (s', true) => (s', true)
      | (s', false) => ({ s' with unsolved_cells := p :: s'.unsolved_cells }, false)

/-- `Sudoku.grid_to_list`: the 81 values in row-major order. -/
def grid_to_list (s : Sudoku) : List Nat :=
  (s.grid.map fun row => row.map fun c => c.value).flatten

/-- `Sudoku.solve(special)`. -/
def solve (l : List Nat) (special : Bool) : Except Unit Sudoku :=
  match reduce_cells (initSudoku l) special with
  | .error e => .error e
  | .ok s1 =>
    if special then
      match reduce_cells (solve_magic_square s1) true with
      | .error e => .error e
      | .ok s3 => .ok (brute_force (s3.unsolved_cells.length + 1) s3 true).1
    else .ok (brute_force (s1.unsolved_cells.length + 1) s1 false).1

/-! ## Specification predicates -/

/-- The grid is a well-formed 9×9 array. -/
def wfGrid (g : Grid) : Prop := g.length = 9 ∧ ∀ row ∈ g, row.length = 9

/-- Every cell holds a value in `[1, 9]` (the "fully solved" condition of
the spec). -/
def fullySolvedB (g : Grid) : Bool :=
  allPositions.all fun p => decide (1 ≤ (getCell g p).value ∧ (getCell g p).value ≤ 9)

def rowValues (g : Grid) (r : Nat) : List Nat :=
  (List.range 9).map fun c => (getCell g (r, c)).value

def colValues (g : Grid) (c : Nat) : List Nat :=
  (List.range 9).map fun r => (getCell g (r, c)).value

def boxValues (g : Grid) (b : Nat) : List Nat :=
  (List.range 9).map fun k => (getCell g (b / 3 * 3 + k / 3, b % 3 * 3 + k % 3)).value

/-- A unit (row, column or box) contains each of 1–9 exactly once. -/
def exactlyOnceB (l : List Nat) : Bool := digits.all fun v => l.count v == 1

/-- Classic sudoku validity: all 9 rows, 9 columns and 9 boxes contain
each of 1–9 exactly once. -/
def validB (g : Grid) : Bool :=
  ((List.range 9).all fun r => exactlyOnceB (rowValues g r)) &&
  ((List.range 9).all fun c => exactlyOnceB (colValues g c)) &&
  ((List.range 9).all fun b => exactlyOnceB (boxValues g b))

/-- Two positions share a classic unit (row, column or 3×3 box). -/
def sameUnit (p q : Pos) : Prop :=
  p.1 = q.1 ∨ p.2 = q.2 ∨ (p.1 / 3 = q.1 / 3 ∧ p.2 / 3 = q.2 / 3)

instance (p q : Pos) : Decidable (sameUnit p q) := by unfold sameUnit; infer_instance

/-- No two distinct solved cells of a shared classic unit hold the same value. -/
def conflictFreeB (g : Grid) : Bool :=
  allPositions.all fun p => allPositions.all fun q =>
    decide (p ≠ q → sameUnit p q →
      (getCell g p).is_solved = true → (getCell g q).is_solved = true →
      (getCell g p).value ≠ (getCell g q).value)

/-- Sums of the central square's rows, columns and diagonals. -/
def midRowSum (g : Grid) (i : Nat) : Nat :=
  ((List.range 3).map fun j => (getCell g (3 + i, 3 + j)).value).sum

def midColSum (g : Grid) (j : Nat) : Nat :=
  ((List.range 3).map fun i => (getCell g (3 + i, 3 + j)).value).sum

def midMainDiagSum (g : Grid) : Nat :=
  ((List.range 3).map fun i => (getCell g (3 + i, 3 + i)).value).sum

def midSideDiagSum (g : Grid) : Nat :=
  ((List.range 3).map fun i => (getCell g (3 + i, 3 + (2 - i))).value).sum

/-- The central 3×3 square is magic: all rows, columns and both
diagonals sum to 15. -/
def midSums15B (g : Grid) : Bool :=
  ((List.range 3).all fun i => midRowSum g i == 15) &&
  ((List.range 3).all fun j => midColSum g j == 15) &&
  (midMainDiagSum g == 15) && (midSideDiagSum g == 15)

/-! ## Concrete boards used by the witnesses and counterexamples -/

/-- The sample solution grid shipped in `__main__` of `src/sudoku.py`
(a valid special-sudoku solution with a magic central square). -/
def solGrid : List Nat :=
  [8,4,3,5,6,7,2,1,9,
   2,7,5,9,1,3,8,4,6,
   6,1,9,4,2,8,3,7,5,
   3,8,4,6,7,2,9,5,1,
   7,2,6,1,5,9,4,8,3,
   9,5,1,8,3,4,6,2,7,
   5,3,7,2,8,6,1,9,4,
   4,6,2,7,9,1,5,3,8,
   1,9,8,3,4,5,7,6,2]

/-- `solGrid` with the central values at `(3,3)` and `(4,3)` swapped:
still a fully supplied grid of digits, but the central square is not
magic (its top row sums to 10). -/
def badCenterGrid : List Nat :=
  [8,4,3,5,6,7,2,1,9,
   2,7,5,9,1,3,8,4,6,
   6,1,9,4,2,8,3,7,5,
   3,8,4,1,7,2,9,5,1,
   7,2,6,6,5,9,4,8,3,
   9,5,1,8,3,4,6,2,7,
   5,3,7,2,8,6,1,9,4,
   4,6,2,7,9,1,5,3,8,
   1,9,8,3,4,5,7,6,2]

/-- `solGrid` with cell `(0,1)` changed from 4 to 8: two pre-supplied
8s in row 0 (and in the top-left box). -/
def dupRowGrid : List Nat :=
  [8,8,3,5,6,7,2,1,9,
   2,7,5,9,1,3,8,4,6,
   6,1,9,4,2,8,3,7,5,
   3,8,4,6,7,2,9,5,1,
   7,2,6,1,5,9,4,8,3,
   9,5,1,8,3,4,6,2,7,
   5,3,7,2,8,6,1,9,4,
   4,6,2,7,9,1,5,3,8,
   1,9,8,3,4,5,7,6,2]

/-- A pairwise-consistent partial grid (no two equal pre-supplied values
share a row, column or box) built from a cyclic latin solution by
swapping `(4,4)` and `(4,8)` and blanking `(0,8)`, `(3,7)`, `(5,5)`,
`(8,4)`: every blank cell's candidate domain is wiped out by its peers,
so propagation silently commits a conflicting value into each of them. -/
def wipeGrid : List Nat :=
  [1,2,3,4,5,6,7,8,0,
   4,5,6,7,8,9,1,2,3,
   7,8,9,1,2,3,4,5,6,
   2,3,4,5,6,7,8,0,1,
   5,6,7,8,4,1,2,3,9,
   8,9,1,2,3,0,5,6,7,
   3,4,5,6,7,8,9,1,2,
   6,7,8,9,1,2,3,4,5,
   9,1,2,3,0,5,6,7,8]

/-- A nearly empty special grid: only the central square is filled, with
the magic arrangement `2 7 6 / 9 5 1 / 4 3 8`, and the two cells
`(3,3)` and `(5,3)` blanked again.  Propagation leaves both with the
candidates `{2, 4}`, and the magic-square sub-solver then solves both. -/
def c4Grid : List Nat :=
  [0,0,0,0,0,0,0,0,0,
   0,0,0,0,0,0,0,0,0,
   0,0,0,0,0,0,0,0,0,
   0,0,0,0,7,6,0,0,0,
   0,0,0,9,5,1,0,0,0,
   0,0,0,0,3,8,0,0,0,
   0,0,0,0,0,0,0,0,0,
   0,0,0,0,0,0,0,0,0,
   0,0,0,0,0,0,0,0,0]

/-! ## Basic lemmas about the embedding -/

instance {ε α : Type} [DecidableEq ε] [DecidableEq α] : DecidableEq (Except ε α) := fun a b =>
  match a, b with
  | .error x, .error y =>
    if h : x = y then isTrue (by rw [h]) else isFalse (by intro hh; cases hh; exact h rfl)
  | .ok x, .ok y =>
    if h : x = y then isTrue (by rw [h]) else isFalse (by intro hh; cases hh; exact h rfl)
  | .error _, .ok _ => isFalse (by intro hh; cases hh)
  | .ok _, .error _ => isFalse (by intro hh; cases hh)

theorem mem_insDedup {x v : Nat} : ∀ {l : List Nat}, x ∈ insDedup v l ↔ x = v ∨ x ∈ l := by
  intro l
  induction l with
  | nil => simp [insDedup]
  | cons y ys ih =>
    by_cases h1 : v < y
    · simp [insDedup, h1]
    · by_cases h2 : v = y
      · subst h2; simp [insDedup, h1]
      · simp [insDedup, h1, h2, ih]
        tauto

theorem mem_mkGroup {x : Nat} : ∀ {l : List Nat}, x ∈ mkGroup l ↔ x ∈ l := by
  intro l
  induction l with
  | nil => simp [mkGroup]
  | cons v vs ih =>
    show x ∈ insDedup v (mkGroup vs) ↔ _
    simp [mem_insDedup, ih]

theorem mem_allPositions {p : Pos} : p ∈ allPositions ↔ p.1 < 9 ∧ p.2 < 9 := by
  obtain ⟨r, c⟩ := p
  simp only [allPositions, List.mem_flatten, List.mem_map, List.mem_range]
  constructor
  · rintro ⟨l, ⟨r', hr', rfl⟩, hc⟩
    simp only [List.mem_map, List.mem_range] at hc
    obtain ⟨c', hc', heq⟩ := hc
    cases heq
    exact ⟨hr', hc'⟩
  · rintro ⟨hr, hc⟩
    exact ⟨_, ⟨r, hr, rfl⟩, by simp only [List.mem_map, List.mem_range]; exact ⟨c, hc, rfl⟩⟩

theorem is_solved_iff {c : Cell} : c.is_solved = true ↔ c.value ≠ 0 := by
  simp [Cell.is_solved]

/-- Every constraining value comes from a solved cell, so it is nonzero. -/
theorem ne_zero_of_mem_constraining {g : Grid} {r c : Nat} {sp : Bool} {v : Nat}
    (h : v ∈ constraining_values g r c sp) : v ≠ 0 := by
  rw [constraining_values, mem_mkGroup] at h
  simp only [List.mem_append] at h
  rcases h with ((h | h) | h) | h
  · simp only [rowConstraining, List.mem_map, List.mem_filter, List.mem_range] at h
    obtain ⟨c', hc', rfl⟩ := h
    have := hc'.2
    simp only [decide_eq_true_eq] at this
    exact is_solved_iff.mp this.2
  · simp only [colConstraining, List.mem_map, List.mem_filter, List.mem_range] at h
    obtain ⟨r', hr', rfl⟩ := h
    have := hr'.2
    simp only [decide_eq_true_eq] at this
    exact is_solved_iff.mp this.2
  · simp only [squareConstraining, List.mem_map, List.mem_filter] at h
    obtain ⟨p, hp, rfl⟩ := h
    have := hp.2
    simp only [decide_eq_true_eq] at this
    exact is_solved_iff.mp this.2
  · rcases sp with _ | _
    · simp at h
    · simp only [if_true] at h
      rw [special_constraining_values] at h
      simp only [List.mem_append] at h
      rcases h with (h | h) | h
      · simp only [knightConstraining, List.mem_flatMap] at h
        obtain ⟨d, _, hm⟩ := h
        split at hm
        · next hcond =>
          simp only [List.mem_singleton] at hm
          subst hm
          exact is_solved_iff.mp hcond.2.2.2.2.2
        · simp at hm
      · split at h
        · simp only [mainDiagConstraining, List.mem_map, List.mem_filter, List.mem_range] at h
          obtain ⟨i, hi, rfl⟩ := h
          exact is_solved_iff.mp (by simpa using hi.2)
        · simp at h
      · split at h
        · simp only [sideDiagConstraining, List.mem_map, List.mem_filter, List.mem_range] at h
          obtain ⟨i, hi, rfl⟩ := h
          exact is_solved_iff.mp (by simpa using hi.2)
        · simp at h

/-- Reducing an unsolved cell against a group of nonzero values never
raises `ConflictError`: the conflict test compares against the cell's
value, which stays 0 until a commit immediately breaks the loop. -/
theorem reduce_possibilities_isOk {c : Cell} {group : List Nat} {b : Bool}
    (hv : c.value = 0) (h0 : 0 ∉ group) :
    ∃ r, c.reduce_possibilities group b = .ok r := by
  induction group generalizing c b with
  | nil => exact ⟨_, rfl⟩
  | cons v rest ih =>
    have hvne : ¬c.value = v := by
      rw [hv]; intro h; exact h0 (by rw [h]; exact List.mem_cons_self _ _)
    rw [Cell.reduce_possibilities]
    simp only [hvne, if_false]
    by_cases hm : v ∈ c.possib
    · simp only [hm, if_true]
      by_cases hl : ({ c with possib := c.possib.erase v } : Cell).possib.length = 1
      · simp only [hl, if_true]; exact ⟨_, rfl⟩
      · simp only [hl, if_false]
        exact ih (c := { c with possib := c.possib.erase v }) hv
          (fun hh => h0 (List.mem_cons_of_mem _ hh))
    · simp only [hm, if_false]
      by_cases hl : c.possib.length = 1
      · simp only [hl, if_true]; exact ⟨_, rfl⟩
      · simp only [hl, if_false]
        exact ih hv (fun hh => h0 (List.mem_cons_of_mem _ hh))

theorem reduce_cell_isOk (s : Sudoku) (p : Pos) (sp : Bool) :
    ∃ r, reduce_cell s p sp = .ok r := by
  rw [reduce_cell]
  by_cases h : (getCell s.grid p).is_solved = true
  · simp only [h, if_true]; exact ⟨_, rfl⟩
  · simp only [h, Bool.false_eq_true, if_false]
    have hv : (getCell s.grid p).value = 0 := by
      by_contra hne
      exact h (is_solved_iff.mpr hne)
    obtain ⟨⟨c', flag⟩, hr⟩ := @reduce_possibilities_isOk (getCell s.grid p)
      (constraining_values s.grid p.1 p.2 sp) false hv
      (fun hh => ne_zero_of_mem_constraining hh rfl)
    rw [hr]
    exact ⟨_, rfl⟩

theorem sweepAux_isOk (sp : Bool) :
    ∀ (fuel : Nat) (s : Sudoku) (i : Nat) (acc : Bool),
    ∃ r, sweepAux sp fuel s i acc = .ok r := by
  intro fuel
  induction fuel with
  | zero => intro s i acc; exact ⟨_, rfl⟩
  | succ n ih =>
    intro s i acc
    rw [sweepAux]
    by_cases h : i < s.unsolved_cells.length
    · simp only [h, if_true]
      obtain ⟨⟨s', flag⟩, hr⟩ := reduce_cell_isOk s (s.unsolved_cells.getD i (0, 0)) sp
      rw [hr]
      exact ih _ _ _
    · simp only [h, if_false]
      exact ⟨_, rfl⟩

theorem sweep_isOk (s : Sudoku) (sp : Bool) : ∃ r, sweep s sp = .ok r :=
  sweepAux_isOk sp _ s 0 false

theorem reduce_cells_aux_isOk (sp : Bool) :
    ∀ (fuel : Nat) (s : Sudoku), ∃ r, reduce_cells_aux sp fuel s = .ok r := by
  intro fuel
  induction fuel with
  | zero => intro s; exact ⟨_, rfl⟩
  | succ n ih =>
    intro s
    rw [reduce_cells_aux]
    by_cases h : s.unsolved_cells.length = 0
    · simp only [h, if_true]; exact ⟨_, rfl⟩
    · simp only [h, if_false]
      obtain ⟨⟨s', flag⟩, hr⟩ := sweep_isOk s sp
      rw [hr]
      by_cases hf : flag = true
      · simp only [hf, if_true]; exact ih _
      · simp only [Bool.not_eq_true] at hf
        simp only [hf, Bool.false_eq_true, if_false]
        exact ⟨_, rfl⟩

theorem reduce_cells_isOk (s : Sudoku) (sp : Bool) : ∃ r, reduce_cells s sp = .ok r :=
  reduce_cells_aux_isOk sp _ s

theorem fullySolved_value {g : Grid} (hs : fullySolvedB g = true) {p : Pos}
    (h1 : p.1 < 9) (h2 : p.2 < 9) :
    1 ≤ (getCell g p).value ∧ (getCell g p).value ≤ 9 := by
  rw [fullySolvedB, List.all_eq_true] at hs
  simpa using hs p (mem_allPositions.mpr ⟨h1, h2⟩)

theorem fullySolved_is_solved {g : Grid} (hs : fullySolvedB g = true) {p : Pos}
    (h1 : p.1 < 9) (h2 : p.2 < 9) : (getCell g p).is_solved = true :=
  is_solved_iff.mpr (by have := (fullySolved_value hs h1 h2).1; omega)

/-! ## C3: conflicts are never raised during `solve` -/

/-- C3 (amended): `solve` never raises `ConflictError`, for any input and
either mode — `__reduce_cell` only reduces unsolved cells, whose value
stays 0 (≠ every constraining value) until a commit breaks the loop. -/
theorem c3_solve_never_raises_conflict (l : List Nat) (sp : Bool) :
    (solve l sp).isOk = true := by
  obtain ⟨s1, h1⟩ := reduce_cells_isOk (initSudoku l) sp
  cases sp with
  | false => rw [solve, h1]; rfl
  | true =>
    obtain ⟨s3, h3⟩ := reduce_cells_isOk (solve_magic_square s1) true
    rw [solve, h1]
    show (match reduce_cells (solve_magic_square s1) true with
      | .error e => Except.error e
      | .ok s3 => Except.ok (brute_force (s3.unsolved_cells.length + 1) s3 true).1).isOk = true
    rw [h3]
    rfl

/-- C3 counterexample: `dupRowGrid` has two pre-supplied 8s in row 0,
yet `solve` reports no conflict and silently returns the grid with the
duplicate intact. -/
theorem c3_counterexample :
    solve dupRowGrid false = .ok (initSudoku dupRowGrid) ∧
    (getCell (initSudoku dupRowGrid).grid (0, 0)).value = 8 ∧
    (getCell (initSudoku dupRowGrid).grid (0, 1)).value = 8 ∧
    fullySolvedB (initSudoku dupRowGrid).grid = true := by decide

/-! ## C5: reducing an already-solved cell -/

/-- C5 counterexample: a freshly constructed solved cell with value 9
(`possib = {1..8}`) reduced against the full group `{1,…,9}` does not
raise: seven eliminations shrink the candidate set to `{8}` first, and
the cell's value is silently overwritten with 8. -/
theorem c5_counterexample :
    Cell.reduce_possibilities (mkCell 0 0 9) [1, 2, 3, 4, 5, 6, 7, 8, 9] false =
      .ok (⟨0, 0, 8, []⟩, true) := by decide

/-- C5 (amended): if the solved cell's candidate set cannot shrink to a
singleton first — in particular in the canonical solved state
`possib = ∅` — reducing against a group containing its value raises
`ConflictError`. -/
theorem c5_amended (c : Cell) (group : List Nat) (b : Bool)
    (hv : c.value ≠ 0) (hp : c.possib = []) (hm : c.value ∈ group) :
    c.reduce_possibilities group b = .error () := by
  revert hm
  induction group generalizing b with
  | nil => intro hm; cases hm
  | cons v rest ih =>
    intro hm
    rw [Cell.reduce_possibilities]
    by_cases h : c.value = v
    · simp [h]
    · have hm' : c.value ∈ rest := by
        rcases List.mem_cons.mp hm with h' | h'
        · exact absurd h' h
        · exact h'
      have hnp : v ∉ c.possib := by rw [hp]; simp
      simp only [h, if_false, hnp]
      have hl : ¬(c.possib.length = 1) := by rw [hp]; simp
      simp only [if_false, hl]
      exact ih b hm'

theorem c5_witness :
    Cell.reduce_possibilities ⟨0, 0, 5, []⟩ [5] false = .error () :=
  c5_amended ⟨0, 0, 5, []⟩ [5] false (by decide) rfl (by decide)

/-! ## C10: commit-on-singleton behaviour of `reduce_possibilities` -/

/-- C10: (1) when an elimination leaves exactly one candidate, that
candidate is committed at once and the rest of the group is never
examined (the result does not depend on `rest`); (2) starting from an
unsolved cell with at least two candidates (none of them 0), the
candidate set is never driven empty: the cell ends solved or keeps a
candidate; (3) concretely, candidates `{4,7}` against a group
containing both 4 and 7 commit the value 7 — a member of the group —
with no `ConflictError`. -/
theorem c10_commit_on_singleton :
    (∀ (c : Cell) (v : Nat) (rest : List Nat) (b : Bool),
      c.value = 0 → v ≠ 0 → v ∈ c.possib → (c.possib.erase v).length = 1 →
      c.reduce_possibilities (v :: rest) b =
        .ok (⟨c.r_pos, c.c_pos, (c.possib.erase v).headD 0, []⟩, true)) ∧
    (∀ (c : Cell) (group : List Nat) (b : Bool) (c' : Cell) (flag : Bool),
      c.value = 0 → 2 ≤ c.possib.length → 0 ∉ c.possib →
      c.reduce_possibilities group b = .ok (c', flag) →
      c'.value ≠ 0 ∨ c'.possib ≠ []) ∧
    Cell.reduce_possibilities ⟨0, 0, 0, [4, 7]⟩ [4, 7] false = .ok (⟨0, 0, 7, []⟩, true) := by
  refine ⟨?_, ?_, by decide⟩
  · intro c v rest b hv hvne hm hl
    have h : ¬c.value = v := by rw [hv]; exact fun h => hvne h.symm
    rw [Cell.reduce_possibilities]
    simp only [h, if_false, hm, if_true, hl, Cell.set_value]
  · intro c group
    induction group generalizing c with
    | nil =>
      intro b c' flag hv hlen h0 hok
      rw [Cell.reduce_possibilities] at hok
      simp only [Except.ok.injEq, Prod.mk.injEq] at hok
      obtain ⟨hc', -⟩ := hok
      right
      rw [← hc']
      intro hnil
      rw [hnil] at hlen
      simp at hlen
    | cons v rest ih =>
      intro b c' flag hv hlen h0 hok
      rw [Cell.reduce_possibilities] at hok
      by_cases h : c.value = v
      · simp only [h, if_true] at hok
        cases hok
      · simp only [h, if_false] at hok
        by_cases hm : v ∈ c.possib
        · simp only [hm, if_true] at hok
          by_cases hl : ({ c with possib := c.possib.erase v } : Cell).possib.length = 1
          · simp only [hl, if_true, Cell.set_value] at hok
            obtain ⟨x, hx⟩ : ∃ x, c.possib.erase v = [x] :=
              List.length_eq_one.mp (by simpa using hl)
            have hxmem : x ∈ c.possib := by
              have : x ∈ c.possib.erase v := by rw [hx]; simp
              exact List.mem_of_mem_erase this
            simp only [hx, Except.ok.injEq, Prod.mk.injEq] at hok
            obtain ⟨hc', -⟩ := hok
            left
            rw [← hc']
            show x ≠ 0
            intro hx0
            rw [hx0] at hxmem
            exact h0 hxmem
          · simp only [hl, if_false] at hok
            have h1 : 1 ≤ (c.possib.erase v).length := by
              have := List.length_erase_of_mem hm
              simp only at hl
              omega
            have h2 : 2 ≤ (c.possib.erase v).length := by
              simp only at hl
              omega
            exact ih { c with possib := c.possib.erase v } true c' flag hv h2
              (fun hmem => h0 (List.mem_of_mem_erase hmem)) hok
        · simp only [hm, if_false] at hok
          have hl : ¬(c.possib.length = 1) := by omega
          simp only [hl, if_false] at hok
          exact ih c b c' flag hv hlen h0 hok

theorem c10_witness :
    Cell.reduce_possibilities ⟨5, 5, 0, [4, 7]⟩ [4, 9, 9, 9] false = .ok (⟨5, 5, 7, []⟩, true) ∧
    ((⟨0, 0, 3, []⟩ : Cell).value ≠ 0 ∨ ([] : List Nat) ≠ []) := by
  constructor
  · have h := c10_commit_on_singleton.1 ⟨5, 5, 0, [4, 7]⟩ 4 [9, 9, 9] false rfl
      (by decide) (by decide) (by decide)
    simpa using h
  · have h := c10_commit_on_singleton.2.1 ⟨0, 0, 0, [1, 2, 3]⟩ [1, 2] false ⟨0, 0, 3, []⟩ true
      rfl (by decide) (by decide) (by decide)
    simpa using h

/-! ## C2: magic central square -/

/-- A line whose three cells are all solved and which passes
`magicLine` sums to 15. -/
theorem magicLine_complete {g : Grid} {ps : List Pos}
    (hall : ∀ p ∈ ps, (getCell g p).is_solved = true) (hlen : ps.length = 3)
    (hline : magicLine g ps = true) :
    ((ps.map fun p => (getCell g p).value).sum) = 15 := by
  rw [magicLine] at hline
  have hfilter : ps.filter (fun p => (getCell g p).is_solved) = ps :=
    List.filter_eq_self.mpr hall
  rw [hfilter] at hline
  simp only [List.length_map, hlen, Bool.not_eq_true', decide_eq_false_iff_not, not_and,
    ne_eq, not_not] at hline
  exact hline trivial

/-- The checker is sound on fully solved grids: if
`__check_magic_square_state` accepts, the central sums are all 15. -/
theorem check_magic_complete {g : Grid} (hs : fullySolvedB g = true)
    (hc : check_magic_square_state g = true) : midSums15B g = true := by
  rw [check_magic_square_state] at hc
  simp only [Bool.and_eq_true, List.all_eq_true, List.mem_range] at hc
  obtain ⟨⟨⟨hrows, hcols⟩, hmd⟩, hsd⟩ := hc
  have hsolved : ∀ i < 3, ∀ j < 3, (getCell g (3 + i, 3 + j)).is_solved = true := by
    intro i hi j hj
    exact fullySolved_is_solved hs (by omega) (by omega)
  have hmap : ∀ (f : Nat → Pos), ((List.range 3).map f).map (fun p => (getCell g p).value) =
      (List.range 3).map fun i => (getCell g (f i)).value := by
    intro f
    rw [List.map_map]
    rfl
  rw [midSums15B]
  simp only [Bool.and_eq_true, List.all_eq_true, List.mem_range, beq_iff_eq]
  refine ⟨⟨⟨?_, ?_⟩, ?_⟩, ?_⟩
  · intro i hi
    have := @magicLine_complete g ((List.range 3).map fun j => (3 + i, 3 + j))
      (by
        intro p hp
        simp only [List.mem_map, List.mem_range] at hp
        obtain ⟨j, hj, rfl⟩ := hp
        exact hsolved i hi j hj)
      (by simp) (hrows i hi)
    rw [hmap] at this
    exact this
  · intro j hj
    have := @magicLine_complete g ((List.range 3).map fun i => (3 + i, 3 + j))
      (by
        intro p hp
        simp only [List.mem_map, List.mem_range] at hp
        obtain ⟨i, hi, rfl⟩ := hp
        exact hsolved i hi j hj)
      (by simp) (hcols j hj)
    rw [hmap] at this
    exact this
  · have := @magicLine_complete g ((List.range 3).map fun i => (3 + i, 3 + i))
      (by
        intro p hp
        simp only [List.mem_map, List.mem_range] at hp
        obtain ⟨i, hi, rfl⟩ := hp
        exact hsolved i hi i hi)
      (by simp) hmd
    rw [hmap] at this
    exact this
  · have := @magicLine_complete g ((List.range 3).map fun i => (3 + i, 3 + (2 - i)))
      (by
        intro p hp
        simp only [List.mem_map, List.mem_range] at hp
        obtain ⟨i, hi, rfl⟩ := hp
        exact hsolved i hi (2 - i) (by omega))
      (by simp) hsd
    rw [hmap] at this
    exact this

/-- C2 (amended): the central sums are guaranteed only insofar as the
final grid still passes `__check_magic_square_state` — the sub-solver
checks its look-ahead states, but neither pre-supplied central values
nor the last assignment are ever re-validated. -/
theorem c2_magic_sums_given_check (l : List Nat) (s' : Sudoku)
    (h : solve l true = .ok s') (hs : fullySolvedB s'.grid = true)
    (hc : check_magic_square_state s'.grid = true) :
    midSums15B s'.grid = true :=
  check_magic_complete hs hc

theorem c2_witness : midSums15B (initSudoku solGrid).grid = true :=
  c2_magic_sums_given_check solGrid (initSudoku solGrid) (by decide) (by decide) (by decide)

/-- C2 counterexample: `badCenterGrid` is fully pre-supplied, so
`solve(special=True)` returns it unchanged and fully solved — yet the
central square's top row sums to 10, not 15. -/
theorem c2_counterexample :
    solve badCenterGrid true = .ok (initSudoku badCenterGrid) ∧
    fullySolvedB (initSudoku badCenterGrid).grid = true ∧
    midRowSum (initSudoku badCenterGrid).grid 0 = 10 ∧
    midSums15B (initSudoku badCenterGrid).grid = false := by decide

/-! ## Indexing lemmas for parsing and flattening -/

theorem getD_map_range {α : Type} (f : Nat → α) {n i : Nat} (h : i < n) (d : α) :
    ((List.range n).map f).getD i d = f i := by
  rw [List.getD_eq_getElem?_getD, List.getElem?_map, List.getElem?_range h]
  rfl

theorem getD_map_of_lt {α β : Type} (f : α → β) : ∀ {l : List α} {i : Nat},
    i < l.length → ∀ (d : β) (d' : α), (l.map f).getD i d = f (l.getD i d') := by
  intro l
  induction l with
  | nil => intro i h; simp at h
  | cons a l ih =>
    intro i h d d'
    cases i with
    | zero => rfl
    | succ i' =>
      exact ih (by simp only [List.length_cons] at h; omega) d d'

theorem getD_mem_of_lt {α : Type} {l : List α} {i : Nat} (h : i < l.length) (d : α) :
    l.getD i d ∈ l := by
  rw [List.getD_eq_getElem?_getD, List.getElem?_eq_getElem h]
  exact List.getElem_mem h

theorem getCell_parse {l : List Nat} {r c : Nat} (hr : r < 9) (hc : c < 9) :
    getCell (parse_grid l) (r, c) = mkCell r c (l.getD (9 * r + c) 0) := by
  rw [getCell, parse_grid]
  show (((List.range 9).map fun r => (List.range 9).map fun c => mkCell r c
    (l.getD (9 * r + c) 0)).getD r []).getD c dummyCell = _
  rw [getD_map_range _ hr, getD_map_range _ hc]

theorem wf_parse (l : List Nat) : wfGrid (parse_grid l) := by
  constructor
  · simp [parse_grid]
  · intro row hrow
    simp only [parse_grid, List.mem_map, List.mem_range] at hrow
    obtain ⟨r, -, rfl⟩ := hrow
    simp

theorem getD_flatten_uniform {α : Type} (d : α) :
    ∀ (rows : List (List α)) (m i j : Nat),
    (∀ row ∈ rows, row.length = m) → i < rows.length → j < m →
    rows.flatten.getD (m * i + j) d = (rows.getD i []).getD j d := by
  intro rows
  induction rows with
  | nil => intro m i j _ hi _; simp at hi
  | cons row rest ih =>
    intro m i j hm hi hj
    have hrow : row.length = m := hm row (List.mem_cons_self _ _)
    cases i with
    | zero =>
      rw [List.flatten_cons, Nat.mul_zero, Nat.zero_add]
      rw [List.getD_append _ _ _ _ (by omega)]
      rfl
    | succ i' =>
      rw [List.flatten_cons]
      rw [List.getD_append_right _ _ _ _ (by
        rw [hrow]
        calc m ≤ m * (i' + 1) := by
              have : 1 ≤ i' + 1 := by omega
              calc m = m * 1 := by omega
                _ ≤ m * (i' + 1) := Nat.mul_le_mul_left m this
          _ ≤ m * (i' + 1) + j := by omega)]
      have harith : m * (i' + 1) + j - row.length = m * i' + j := by
        rw [hrow]
        have : m * (i' + 1) = m * i' + m := by ring
        omega
      rw [harith]
      have := ih m i' j (fun row' hrow' => hm row' (List.mem_cons_of_mem _ hrow')) (by
        simp only [List.length_cons] at hi
        omega) hj
      rw [this]
      rfl

theorem length_flatten_uniform {α : Type} :
    ∀ (rows : List (List α)) (m : Nat), (∀ row ∈ rows, row.length = m) →
    rows.flatten.length = m * rows.length := by
  intro rows
  induction rows with
  | nil => intro m _; simp
  | cons row rest ih =>
    intro m hm
    rw [List.flatten_cons, List.length_append, hm row (List.mem_cons_self _ _),
      ih m (fun row' h => hm row' (List.mem_cons_of_mem _ h))]
    simp only [List.length_cons]
    ring

theorem grid_to_list_rows_len {s : Sudoku} (hwf : wfGrid s.grid) :
    ∀ row ∈ s.grid.map fun row => row.map fun c => c.value, row.length = 9 := by
  intro row hrow
  simp only [List.mem_map] at hrow
  obtain ⟨row', hrow', rfl⟩ := hrow
  rw [List.length_map]
  exact hwf.2 row' hrow'

theorem grid_to_list_length {s : Sudoku} (hwf : wfGrid s.grid) :
    (grid_to_list s).length = 81 := by
  rw [grid_to_list, length_flatten_uniform _ 9 (grid_to_list_rows_len hwf),
    List.length_map, hwf.1]

theorem grid_to_list_getD {s : Sudoku} (hwf : wfGrid s.grid) {r c : Nat}
    (hr : r < 9) (hc : c < 9) :
    (grid_to_list s).getD (9 * r + c) 0 = (getCell s.grid (r, c)).value := by
  rw [grid_to_list]
  rw [getD_flatten_uniform 0 _ 9 r c (grid_to_list_rows_len hwf)
    (by rw [List.length_map, hwf.1]; exact hr) hc]
  rw [getD_map_of_lt _ (by rw [hwf.1]; exact hr) [] []]
  have hlenrow : (s.grid.getD r []).length = 9 :=
    hwf.2 _ (getD_mem_of_lt (by rw [hwf.1]; exact hr) [])
  rw [getD_map_of_lt _ (by rw [hlenrow]; exact hc) 0 dummyCell]
  rfl

/-! ## C8: round-trip through `grid_to_list` and a fresh `Sudoku` -/

/-- C8: flattening any well-formed board and constructing a fresh
`Sudoku` from the list reproduces every cell value. -/
theorem c8_roundtrip (s : Sudoku) (hwf : wfGrid s.grid) :
    ∀ r, r < 9 → ∀ c, c < 9 →
    (getCell (initSudoku (grid_to_list s)).grid (r, c)).value =
      (getCell s.grid (r, c)).value := by
  intro r hr c hc
  show (getCell (parse_grid (grid_to_list s)) (r, c)).value = _
  rw [getCell_parse hr hc]
  show (grid_to_list s).getD (9 * r + c) 0 = _
  exact grid_to_list_getD hwf hr hc

theorem c8_witness :
    (getCell (initSudoku (grid_to_list (initSudoku solGrid))).grid (0, 0)).value =
      (getCell (initSudoku solGrid).grid (0, 0)).value :=
  c8_roundtrip (initSudoku solGrid) (wf_parse solGrid) 0 (by omega) 0 (by omega)

/-! ## C7: solving an already-solved grid changes nothing -/

theorem initSudoku_frontier_empty {l : List Nat} (hlen : l.length = 81)
    (hvals : ∀ v ∈ l, 1 ≤ v ∧ v ≤ 9) : (initSudoku l).unsolved_cells = [] := by
  show (allPositions.filter fun p => !(getCell (parse_grid l) p).is_solved) = []
  rw [List.filter_eq_nil]
  intro p hp
  obtain ⟨r, c⟩ := p
  obtain ⟨h1, h2⟩ := mem_allPositions.mp hp
  rw [getCell_parse h1 h2]
  have hidx : 9 * r + c < l.length := by rw [hlen]; omega
  have hv := hvals _ (getD_mem_of_lt hidx 0)
  have : (mkCell r c (l.getD (9 * r + c) 0)).is_solved = true :=
    is_solved_iff.mpr (by show l.getD (9 * r + c) 0 ≠ 0; omega)
  rw [this]
  simp

theorem reduce_cells_of_empty {s : Sudoku} (h : s.unsolved_cells = []) (sp : Bool) :
    reduce_cells s sp = .ok s := by
  rw [reduce_cells, reduce_cells_aux]
  simp [h]

theorem solve_magic_square_of_solved {s : Sudoku}
    (hall : ∀ p ∈ midSquarePositions, (getCell s.grid p).is_solved = true) :
    solve_magic_square s = s := by
  have hms : (midSquarePositions.filter fun p => !(getCell s.grid p).is_solved) = [] := by
    rw [List.filter_eq_nil]
    intro p hp
    simp [hall p hp]
  rw [solve_magic_square]
  simp only [hms]
  rw [brute_force_magic_square]

theorem brute_force_of_empty {s : Sudoku} (h : s.unsolved_cells = []) (sp : Bool) (n : Nat) :
    brute_force (n + 1) s sp = (s, true) := by
  rw [brute_force, h]

/-- C7: `solve` on an already-fully-solved valid grid leaves every cell
value unchanged, in both modes. -/
theorem c7_solve_idempotent (l : List Nat) (sp : Bool) (hlen : l.length = 81)
    (hvals : ∀ v ∈ l, 1 ≤ v ∧ v ≤ 9) (hvalid : validB (parse_grid l) = true) :
    solve l sp = .ok (initSudoku l) ∧ grid_to_list (initSudoku l) = l := by
  have hfe := initSudoku_frontier_empty hlen hvals
  have hred := reduce_cells_of_empty hfe sp
  constructor
  · cases sp with
    | false =>
      rw [solve, hred]
      show Except.ok (brute_force ((initSudoku l).unsolved_cells.length + 1)
        (initSudoku l) false).1 = _
      rw [hfe]
      rw [brute_force_of_empty hfe]
    | true =>
      rw [solve, hred]
      have hmagic : solve_magic_square (initSudoku l) = initSudoku l := by
        apply solve_magic_square_of_solved
        intro p hp
        obtain ⟨r, c⟩ := p
        have hb : r < 9 ∧ c < 9 := by
          have : ∀ q ∈ midSquarePositions, q.1 < 9 ∧ q.2 < 9 := by decide
          exact this _ hp
        show (getCell (parse_grid l) (r, c)).is_solved = true
        rw [getCell_parse hb.1 hb.2]
        have hidx : 9 * r + c < l.length := by rw [hlen]; omega
        have hv := hvals _ (getD_mem_of_lt hidx 0)
        exact is_solved_iff.mpr (by show l.getD (9 * r + c) 0 ≠ 0; omega)
      show (match reduce_cells (solve_magic_square (initSudoku l)) true with
        | .error e => Except.error e
        | .ok s3 => Except.ok (brute_force (s3.unsolved_cells.length + 1) s3 true).1) = _
      rw [hmagic, reduce_cells_of_empty hfe true]
      show Except.ok (brute_force ((initSudoku l).unsolved_cells.length + 1)
        (initSudoku l) true).1 = _
      rw [hfe]
      rw [brute_force_of_empty hfe]
  · apply List.ext_getElem
    · rw [grid_to_list_length (wf_parse l), hlen]
    · intro i h1 h2
      have hi : i < 81 := by rwa [grid_to_list_length (wf_parse l)] at h1
      have hidx : 9 * (i / 9) + i % 9 = i := Nat.div_add_mod i 9
      have e1 : (grid_to_list (initSudoku l))[i] = (grid_to_list (initSudoku l)).getD i 0 := by
        rw [List.getD_eq_getElem?_getD, List.getElem?_eq_getElem h1]
        rfl
      rw [e1]
      have e2 : (grid_to_list (initSudoku l)).getD i 0 =
          (getCell (parse_grid l) (i / 9, i % 9)).value := by
        conv_lhs => rw [← hidx]
        exact grid_to_list_getD (wf_parse l) (by omega) (by omega)
      rw [e2, getCell_parse (by omega) (by omega)]
      show l.getD (9 * (i / 9) + i % 9) 0 = l[i]
      rw [hidx, List.getD_eq_getElem?_getD, List.getElem?_eq_getElem h2]
      rfl

theorem c7_witness :
    solve solGrid true = .ok (initSudoku solGrid) ∧
    grid_to_list (initSudoku solGrid) = solGrid :=
  c7_solve_idempotent solGrid true (by decide) (by decide) (by decide)

/-! ## Grid update lemmas -/

theorem getD_set_self' {α : Type} {l : List α} {i : Nat} (h : i < l.length) (a d : α) :
    (l.set i a).getD i d = a := by
  rw [List.getD_eq_getElem?_getD, List.getElem?_set_self h]
  rfl

theorem getD_set_ne' {α : Type} {l : List α} {i j : Nat} (h : i ≠ j) (a d : α) :
    (l.set i a).getD j d = l.getD j d := by
  rw [List.getD_eq_getElem?_getD, List.getElem?_set_ne h, ← List.getD_eq_getElem?_getD]

theorem set_getD_self {α : Type} (l : List α) (i : Nat) (d : α) :
    l.set i (l.getD i d) = l := by
  by_cases h : i < l.length
  · apply List.ext_getElem
    · simp
    · intro j h1 h2
      by_cases hij : i = j
      · subst hij
        rw [List.getElem_set_self, List.getD_eq_getElem?_getD, List.getElem?_eq_getElem h]
        rfl
      · rw [List.getElem_set_ne hij]
  · rw [List.set_eq_of_length_le (by omega)]

theorem wf_setCell {g : Grid} (hwf : wfGrid g) {p : Pos} (h1 : p.1 < 9) (c : Cell) :
    wfGrid (setCell g p c) := by
  constructor
  · rw [setCell, List.length_set]
    exact hwf.1
  · intro row hrow
    rcases List.mem_or_eq_of_mem_set hrow with h | h
    · exact hwf.2 row h
    · subst h
      rw [List.length_set]
      exact hwf.2 _ (getD_mem_of_lt (by rw [hwf.1]; exact h1) [])

theorem getCell_setCell_self {g : Grid} {p : Pos} {c : Cell} (hwf : wfGrid g)
    (h1 : p.1 < 9) (h2 : p.2 < 9) : getCell (setCell g p c) p = c := by
  rw [getCell, setCell, getD_set_self' (by rw [hwf.1]; exact h1),
    getD_set_self' (by rw [hwf.2 _ (getD_mem_of_lt (by rw [hwf.1]; exact h1) [])]; exact h2)]

theorem getCell_setCell_ne {g : Grid} {p q : Pos} {c : Cell} (hne : q ≠ p) :
    getCell (setCell g p c) q = getCell g q := by
  by_cases hr : q.1 = p.1
  · have hc : q.2 ≠ p.2 := by
      intro hc
      exact hne (Prod.ext hr hc)
    by_cases hb : p.1 < g.length
    · rw [getCell, setCell, hr, getD_set_self' hb, getD_set_ne' (Ne.symm hc), getCell, hr]
    · rw [setCell, List.set_eq_of_length_le (by omega)]
  · rw [getCell, setCell, getD_set_ne' (fun h => hr h.symm), getCell]

theorem setCell_setCell {g : Grid} {p : Pos} (c1 c2 : Cell) (hwf : wfGrid g)
    (h1 : p.1 < 9) : setCell (setCell g p c1) p c2 = setCell g p c2 := by
  show (g.set p.1 ((g.getD p.1 []).set p.2 c1)).set p.1
      ((((g.set p.1 ((g.getD p.1 []).set p.2 c1))).getD p.1 []).set p.2 c2) = _
  rw [getD_set_self' (by rw [hwf.1]; exact h1), List.set_set, List.set_set]
  rfl

theorem setCell_getCell_self {g : Grid} {p : Pos} :
    setCell g p (getCell g p) = g := by
  rw [setCell, getCell, set_getD_self, set_getD_self]

/-- A cell whose value is already 0 is unchanged by writing value 0. -/
theorem cell_zero_eta {c : Cell} (h : c.value = 0) : ({ c with value := 0 } : Cell) = c := by
  cases c
  simp only at h
  simp [h]

/-- Undoing a trial assignment (`cell.value = 0`) after
`set_value(v, certainty=False)` restores the grid exactly, when the
target cell was unsolved. -/
theorem undo_set_value {g : Grid} {p : Pos} (hwf : wfGrid g) (h1 : p.1 < 9) (h2 : p.2 < 9)
    (hp0 : (getCell g p).value = 0) (v : Nat) :
    setCell (setCell g p ((getCell g p).set_value v false)) p
      { getCell (setCell g p ((getCell g p).set_value v false)) p with value := 0 } = g := by
  rw [getCell_setCell_self hwf h1 h2, setCell_setCell _ _ hwf h1]
  have hcell : ({ (getCell g p).set_value v false with value := 0 } : Cell) = getCell g p := by
    rw [Cell.set_value]
    dsimp only
    rw [if_neg (by simp)]
    exact cell_zero_eta hp0
  rw [hcell, setCell_getCell_self]

/-! ## C6: failed backtracking restores the entry state -/

/-- The candidate loop of `__brute_force` restores its entry state on
failure, provided the target cell is an in-bounds unsolved cell outside
the current frontier and the deeper levels restore too. -/
theorem bfTry_false_restores (n : Nat) (sp : Bool) (p : Pos)
    (hrec : ∀ (t t' : Sudoku), wfGrid t.grid →
      (∀ q ∈ t.unsolved_cells, q.1 < 9 ∧ q.2 < 9 ∧ (getCell t.grid q).value = 0) →
      t.unsolved_cells.Nodup →
      brute_force n t sp = (t', false) → t' = t)
    (h1 : p.1 < 9) (h2 : p.2 < 9) :
    ∀ (vals : List Nat) (t s' : Sudoku),
    wfGrid t.grid → (getCell t.grid p).value = 0 →
    (∀ q ∈ t.unsolved_cells, q.1 < 9 ∧ q.2 < 9 ∧ (getCell t.grid q).value = 0) →
    t.unsolved_cells.Nodup → p ∉ t.unsolved_cells →
    bfTry (brute_force n · sp) p sp t vals = (s', false) → s' = t := by
  intro vals
  induction vals with
  | nil =>
    intro t s' _ _ _ _ _ h
    rw [bfTry] at h
    exact (Prod.mk.injEq _ _ _ _ ▸ h).1.symm
  | cons v vs ih =>
    intro t s' hwf hp0 hfr hnd hpnot h
    rw [bfTry] at h
    by_cases hchk : check_cell_possib t.grid p v sp = true
    · rw [if_pos hchk] at h
      rcases hbf : brute_force n
        { t with grid := setCell t.grid p ((getCell t.grid p).set_value v false) } sp
        with ⟨s2, b2⟩
      rw [hbf] at h
      cases b2 with
      | true =>
        dsimp only at h
        cases h
      | false =>
        dsimp only at h
        have hs2 : s2 =
            { t with grid := setCell t.grid p ((getCell t.grid p).set_value v false) } := by
          refine hrec { t with grid := setCell t.grid p ((getCell t.grid p).set_value v false) }
            s2 (wf_setCell hwf h1 _) ?_ hnd hbf
          intro q hq
          have hq' := hfr q hq
          refine ⟨hq'.1, hq'.2.1, ?_⟩
          show (getCell (setCell t.grid p _) q).value = 0
          rw [getCell_setCell_ne (by intro hqp; exact hpnot (hqp ▸ hq))]
          exact hq'.2.2
        subst hs2
        have hnext := ih _ s' ?hwfU ?hp0U ?hfrU ?hndU ?hpnotU h
        case hwfU =>
          exact wf_setCell (wf_setCell hwf h1 _) h1 _
        case hp0U =>
          show (getCell (setCell (setCell t.grid p _) p _) p).value = 0
          rw [getCell_setCell_self (wf_setCell hwf h1 _) h1 h2]
        case hfrU =>
          intro q hq
          have hq' := hfr q hq
          have hqp : q ≠ p := by intro hqp; exact hpnot (hqp ▸ hq)
          refine ⟨hq'.1, hq'.2.1, ?_⟩
          show (getCell (setCell (setCell t.grid p _) p _) q).value = 0
          rw [getCell_setCell_ne hqp, getCell_setCell_ne hqp]
          exact hq'.2.2
        case hndU => exact hnd
        case hpnotU => exact hpnot
        rw [hnext]
        have hmk : ∀ (g1 : Grid) (u : List Pos), g1 = t.grid → u = t.unsolved_cells →
            ({ grid := g1, unsolved_cells := u } : Sudoku) = t := by
          intro g1 u hg hu
          rw [hg, hu]
        exact hmk _ _ (undo_set_value hwf h1 h2 hp0 v) rfl
    · rw [if_neg hchk] at h
      exact ih t s' hwf hp0 hfr hnd hpnot h

/-- C6 (amended): whenever `__brute_force` is called on a state whose
frontier lists distinct, in-bounds, genuinely unsolved cells — as holds
throughout normal-mode solving — a failing call restores every cell
value and the frontier order to their state at entry.  (A stale solved
frontier entry, possible in special mode, is instead left reset to 0:
see the counterexample.) -/
theorem c6_brute_force_false_restores :
    ∀ (fuel : Nat) (s : Sudoku) (sp : Bool) (s' : Sudoku),
    wfGrid s.grid →
    (∀ q ∈ s.unsolved_cells, q.1 < 9 ∧ q.2 < 9 ∧ (getCell s.grid q).value = 0) →
    s.unsolved_cells.Nodup →
    brute_force fuel s sp = (s', false) → s' = s := by
  intro fuel
  induction fuel with
  | zero =>
    intro s sp s' _ _ _ h
    rw [brute_force] at h
    exact (Prod.mk.injEq _ _ _ _ ▸ h).1.symm
  | succ n ih =>
    intro s sp s' hwf hfr hnd h
    rw [brute_force] at h
    match hms : s.unsolved_cells with
    | [] =>
      rw [hms] at h
      cases h
    | p :: rest =>
      rw [hms] at h
      dsimp only at h
      have hp := hfr p (by rw [hms]; exact List.mem_cons_self _ _)
      have hrest : ∀ q ∈ rest, q.1 < 9 ∧ q.2 < 9 ∧ (getCell s.grid q).value = 0 := by
        intro q hq
        exact hfr q (by rw [hms]; exact List.mem_cons_of_mem _ hq)
      have hndrest : rest.Nodup := by
        rw [hms] at hnd
        exact hnd.of_cons
      have hpnot : p ∉ rest := by
        rw [hms] at hnd
        exact (List.nodup_cons.mp hnd).1
      match hbt : bfTry (brute_force n · sp) p sp { s with unsolved_cells := rest }
          (getCell s.grid p).possib with
      | (s'', true) =>
        rw [hbt] at h
        cases h
      | (s'', false) =>
        rw [hbt] at h
        have hs'' : s'' = { s with unsolved_cells := rest } :=
          bfTry_false_restores n sp p (fun t t' => ih t sp t')
            hp.1 hp.2.1 _ _ _ hwf hp.2.2 hrest hndrest hpnot hbt
        have : s' = { s'' with unsolved_cells := p :: s''.unsolved_cells } :=
          (Prod.mk.injEq _ _ _ _ ▸ h).1.symm
        rw [this, hs'']
        show ({ s with unsolved_cells := p :: rest } : Sudoku) = s
        rw [← hms]

/-- `solGrid` with `(0,0)` blanked and `(8,0)` changed from 1 to 8: the
nine peers of `(0,0)` now cover all of 1–9, so the general backtracking
rejects every candidate and fails. -/
def c6WitnessGrid : List Nat :=
  [0,4,3,5,6,7,2,1,9,
   2,7,5,9,1,3,8,4,6,
   6,1,9,4,2,8,3,7,5,
   3,8,4,6,7,2,9,5,1,
   7,2,6,1,5,9,4,8,3,
   9,5,1,8,3,4,6,2,7,
   5,3,7,2,8,6,1,9,4,
   4,6,2,7,9,1,5,3,8,
   8,9,8,3,4,5,7,6,2]

theorem c6_witness :
    (brute_force 2 (initSudoku c6WitnessGrid) false).1 = initSudoku c6WitnessGrid :=
  c6_brute_force_false_restores 2 (initSudoku c6WitnessGrid) false
    (brute_force 2 (initSudoku c6WitnessGrid) false).1
    (wf_parse c6WitnessGrid) (by decide) (by decide) (by decide)

/-- An otherwise empty board with a solved 7 at `(0,2)`, a stale solved
cell 5 at `(0,0)` that is still listed in the frontier (the situation
the magic-square sub-solver creates), and an unsolved `(0,1)` whose
only candidate 7 always collides. -/
def c6StaleState : Sudoku :=
  { grid := setCell (setCell (parse_grid
      [0,0,7,0,0,0,0,0,0,
       0,0,0,0,0,0,0,0,0,
       0,0,0,0,0,0,0,0,0,
       0,0,0,0,0,0,0,0,0,
       0,0,0,0,0,0,0,0,0,
       0,0,0,0,0,0,0,0,0,
       0,0,0,0,0,0,0,0,0,
       0,0,0,0,0,0,0,0,0,
       0,0,0,0,0,0,0,0,0]) (0, 0) ⟨0, 0, 5, [3]⟩) (0, 1) ⟨0, 1, 0, [7]⟩
    unsolved_cells := [(0, 0), (0, 1)] }

/-- C6 counterexample: on a state whose frontier holds a stale solved
cell (value 5), the failing search does not restore the entry state —
the stale cell ends up reset to 0. -/
theorem c6_counterexample :
    (brute_force 3 c6StaleState false).2 = false ∧
    (getCell c6StaleState.grid (0, 0)).value = 5 ∧
    (getCell (brute_force 3 c6StaleState false).1.grid (0, 0)).value = 0 ∧
    (brute_force 3 c6StaleState false).1 ≠ c6StaleState := by decide

/-! ## C4: the frontier tracks the unsolved cells -/

/-- The frontier lists exactly the currently-unsolved cells: no
duplicates, only in-bounds positions, and membership coincides with
holding value 0. -/
def frontierOK (s : Sudoku) : Prop :=
  s.unsolved_cells.Nodup ∧
  (∀ p ∈ s.unsolved_cells, p.1 < 9 ∧ p.2 < 9) ∧
  ∀ p ∈ allPositions, (p ∈ s.unsolved_cells ↔ (getCell s.grid p).value = 0)

instance (s : Sudoku) : Decidable (frontierOK s) := by
  unfold frontierOK
  infer_instance

/-- When every other listed cell is unsolved, `list.remove(cell)`
removes exactly the first occurrence of the target. -/
theorem removeFirstMatch_eq_erase {g : Grid} {p : Pos} :
    ∀ {l : List Pos}, (∀ q ∈ l, q ≠ p → (getCell g q).value = 0) →
    removeFirstMatch g p l = l.erase p := by
  intro l
  induction l with
  | nil => intro _; rfl
  | cons q qs ih =>
    intro hothers
    rw [removeFirstMatch, List.erase_cons]
    by_cases hq : q = p
    · rw [if_pos (Or.inl hq), if_pos (by rw [hq]; exact beq_self_eq_true p)]
    · have hq0 : (getCell g q).value = 0 := hothers q (List.mem_cons_self _ _) hq
      rw [if_neg ?hcond, if_neg (by simp [hq]), ih ?hoth]
      case hcond =>
        rintro (hc | hc)
        · exact hq hc
        · rw [is_solved_iff] at hc
          exact hc.1 hq0
      case hoth =>
        intro q' hq' hq'p
        exact hothers q' (List.mem_cons_of_mem _ hq') hq'p

theorem reduce_cell_shape {s : Sudoku} {p : Pos} {sp : Bool} {s1 : Sudoku} {flag : Bool}
    (h0 : (getCell s.grid p).is_solved = false)
    (h : reduce_cell s p sp = .ok (s1, flag)) :
    ∃ c', s1 = { s with grid := setCell s.grid p c' } := by
  rw [reduce_cell] at h
  rw [h0] at h
  simp only [Bool.false_eq_true, if_false] at h
  rcases hrp : (getCell s.grid p).reduce_possibilities
      (constraining_values s.grid p.1 p.2 sp) false with e | ⟨c', fl⟩
  · rw [hrp] at h
    cases h
  · rw [hrp] at h
    simp only [Except.ok.injEq, Prod.mk.injEq] at h
    exact ⟨c', h.1.symm⟩

theorem cell_value_zero_of_unsolved {c : Cell} (h : c.is_solved = false) : c.value = 0 := by
  rw [Cell.is_solved] at h
  simpa using h

/-- Updating a listed unsolved cell keeps the frontier exact: if the new
cell is still unsolved nothing changes, and if it became solved the
`remove` call deletes exactly its frontier entry. -/
theorem frontierOK_after_update {s : Sudoku} {p : Pos} {c' : Cell}
    (hwf : wfGrid s.grid) (hfo : frontierOK s) (hp1 : p.1 < 9) (hp2 : p.2 < 9)
    (hpmem : p ∈ s.unsolved_cells) :
    (c'.is_solved = false → frontierOK { s with grid := setCell s.grid p c' }) ∧
    (c'.is_solved = true → frontierOK (Sudoku.mk (setCell s.grid p c')
      (removeFirstMatch (setCell s.grid p c') p s.unsolved_cells))) := by
  have hget : ∀ q : Pos, q ≠ p → getCell (setCell s.grid p c') q = getCell s.grid q :=
    fun q hq => getCell_setCell_ne hq
  have hgetp : getCell (setCell s.grid p c') p = c' := getCell_setCell_self hwf hp1 hp2
  constructor
  · intro hc
    refine ⟨hfo.1, hfo.2.1, ?_⟩
    intro q hq
    by_cases hqp : q = p
    · subst hqp
      show q ∈ s.unsolved_cells ↔ (getCell (setCell s.grid q c') q).value = 0
      rw [hgetp]
      constructor
      · intro _
        exact cell_value_zero_of_unsolved hc
      · intro _
        exact hpmem
    · show q ∈ s.unsolved_cells ↔ (getCell (setCell s.grid p c') q).value = 0
      rw [hget q hqp]
      exact hfo.2.2 q hq
  · intro hc
    have hothers : ∀ q ∈ s.unsolved_cells, q ≠ p →
        (getCell (setCell s.grid p c') q).value = 0 := by
      intro q hq hqp
      rw [hget q hqp]
      obtain ⟨hq1, hq2⟩ := hfo.2.1 q hq
      exact (hfo.2.2 q (mem_allPositions.mpr ⟨hq1, hq2⟩)).mp hq
    have herase : removeFirstMatch (setCell s.grid p c') p s.unsolved_cells =
        s.unsolved_cells.erase p := removeFirstMatch_eq_erase hothers
    rw [herase]
    refine ⟨hfo.1.erase p, ?_, ?_⟩
    · intro q hq
      exact hfo.2.1 q (List.mem_of_mem_erase hq)
    · intro q hq
      show q ∈ s.unsolved_cells.erase p ↔ (getCell (setCell s.grid p c') q).value = 0
      rw [List.Nodup.mem_erase_iff hfo.1]
      by_cases hqp : q = p
      · subst hqp
        rw [hgetp]
        constructor
        · intro hcontra
          exact absurd rfl hcontra.1
        · intro h0
          exact absurd (is_solved_iff.mp hc) (by rw [h0]; simp)
      · rw [hget q hqp]
        constructor
        · intro hmem
          exact (hfo.2.2 q hq).mp hmem.2
        · intro h0
          exact ⟨hqp, (hfo.2.2 q hq).mpr h0⟩

/-- One sweep of `__reduce_cells` preserves exact frontier tracking:
a cell that becomes solved is removed immediately (and only it), a cell
that stays unsolved stays listed. -/
theorem sweepAux_frontierOK (sp : Bool) :
    ∀ (fuel : Nat) (s : Sudoku) (i : Nat) (acc : Bool) (s' : Sudoku) (b : Bool),
    wfGrid s.grid → frontierOK s →
    sweepAux sp fuel s i acc = .ok (s', b) → frontierOK s' ∧ wfGrid s'.grid := by
  intro fuel
  induction fuel with
  | zero =>
    intro s i acc s' b hwf hfo h
    rw [sweepAux] at h
    simp only [Except.ok.injEq, Prod.mk.injEq] at h
    rw [← h.1]
    exact ⟨hfo, hwf⟩
  | succ n ih =>
    intro s i acc s' b hwf hfo h
    rw [sweepAux] at h
    by_cases hi : i < s.unsolved_cells.length
    · rw [if_pos hi] at h
      dsimp only at h
      have hpmem : s.unsolved_cells.getD i (0, 0) ∈ s.unsolved_cells :=
        getD_mem_of_lt hi (0, 0)
      obtain ⟨hp1, hp2⟩ := hfo.2.1 _ hpmem
      have hpval : (getCell s.grid (s.unsolved_cells.getD i (0, 0))).value = 0 :=
        (hfo.2.2 _ (mem_allPositions.mpr ⟨hp1, hp2⟩)).mp hpmem
      have hpuns : (getCell s.grid (s.unsolved_cells.getD i (0, 0))).is_solved = false := by
        rw [Cell.is_solved, hpval]
        simp
      rcases hrc : reduce_cell s (s.unsolved_cells.getD i (0, 0)) sp with e | ⟨s1, flag⟩
      · rw [hrc] at h
        cases h
      · rw [hrc] at h
        obtain ⟨c', rfl⟩ := reduce_cell_shape hpuns hrc
        dsimp only at h
        rw [getCell_setCell_self hwf hp1 hp2] at h
        have hupd := @frontierOK_after_update _ _ c' hwf hfo hp1 hp2 hpmem
        by_cases hsolved : c'.is_solved = true
        · rw [if_pos hsolved] at h
          exact ih _ _ _ s' b (wf_setCell hwf hp1 _) (hupd.2 hsolved) h
        · rw [if_neg hsolved] at h
          exact ih _ _ _ s' b (wf_setCell hwf hp1 _)
            (hupd.1 (Bool.not_eq_true _ ▸ hsolved : c'.is_solved = false)) h
    · rw [if_neg hi] at h
      simp only [Except.ok.injEq, Prod.mk.injEq] at h
      rw [← h.1]
      exact ⟨hfo, hwf⟩

theorem sweep_frontierOK {s : Sudoku} {sp : Bool} {s' : Sudoku} {b : Bool}
    (hwf : wfGrid s.grid) (hfo : frontierOK s) (h : sweep s sp = .ok (s', b)) :
    frontierOK s' ∧ wfGrid s'.grid :=
  sweepAux_frontierOK sp _ s 0 false s' b hwf hfo h

theorem reduce_cells_aux_frontierOK (sp : Bool) :
    ∀ (fuel : Nat) (s s' : Sudoku),
    wfGrid s.grid → frontierOK s → reduce_cells_aux sp fuel s = .ok s' →
    frontierOK s' ∧ wfGrid s'.grid := by
  intro fuel
  induction fuel with
  | zero =>
    intro s s' hwf hfo h
    rw [reduce_cells_aux] at h
    cases h
    exact ⟨hfo, hwf⟩
  | succ n ih =>
    intro s s' hwf hfo h
    rw [reduce_cells_aux] at h
    by_cases hempty : s.unsolved_cells.length = 0
    · rw [if_pos hempty] at h
      cases h
      exact ⟨hfo, hwf⟩
    · rw [if_neg hempty] at h
      rcases hsw : sweep s sp with e | ⟨s1, flag⟩
      · rw [hsw] at h
        cases h
      · rw [hsw] at h
        dsimp only at h
        obtain ⟨hfo1, hwf1⟩ := sweep_frontierOK hwf hfo hsw
        by_cases hf : flag = true
        · rw [if_pos hf] at h
          exact ih s1 s' hwf1 hfo1 h
        · rw [if_neg hf] at h
          cases h
          exact ⟨hfo1, hwf1⟩

/-- C4 (amended): throughout the propagation phase the frontier tracks
exactly the currently-unsolved cells — an entry is removed the moment
its cell becomes solved, exactly once.  However this holds only for the
sweeps of `__reduce_cells`: the magic-square sub-solver solves central
cells without removing them from the frontier, so solved cells linger
there until the next propagation pass (see the counterexample). -/
theorem c4_frontier_exact_during_propagation (s : Sudoku) (sp : Bool) (s' : Sudoku)
    (hwf : wfGrid s.grid) (hfo : frontierOK s) (h : reduce_cells s sp = .ok s') :
    frontierOK s' ∧ wfGrid s'.grid :=
  reduce_cells_aux_frontierOK sp _ s s' hwf hfo h

theorem c4_witness : frontierOK (initSudoku solGrid) ∧ wfGrid (initSudoku solGrid).grid :=
  c4_frontier_exact_during_propagation (initSudoku solGrid) false (initSudoku solGrid)
    (wf_parse solGrid) (by decide) (by decide)

/-- C4 counterexample: on `c4Grid`, right after the magic-square
sub-solver runs inside `solve(special=True)` — i.e. after the first
propagation pass and `__solve_magic_square` — the cell `(3,3)` is
solved yet still sits in the frontier. -/
theorem c4_counterexample :
    ((reduce_cells (initSudoku c4Grid) true).toOption.elim false fun s1 =>
      decide ((3, 3) ∈ (solve_magic_square s1).unsolved_cells) &&
      (getCell (solve_magic_square s1).grid (3, 3)).is_solved) = true := by decide

/-! ## C9: termination measures -/

/-- `reduce_possibilities` never grows the candidate set, and reports a
reduction only when it strictly shrank it (or the flag was already
set). -/
theorem reduce_possibilities_length :
    ∀ (group : List Nat) (c : Cell) (b : Bool) (c' : Cell) (fl : Bool),
    c.reduce_possibilities group b = .ok (c', fl) →
    c'.possib.length ≤ c.possib.length ∧
    (fl = true → b = true ∨ c'.possib.length < c.possib.length) := by
  intro group
  induction group with
  | nil =>
    intro c b c' fl h
    rw [Cell.reduce_possibilities] at h
    simp only [Except.ok.injEq, Prod.mk.injEq] at h
    obtain ⟨hc, hb⟩ := h
    rw [← hc]
    exact ⟨Nat.le_refl _, fun hf => Or.inl (by rw [hb, hf])⟩
  | cons v rest ih =>
    intro c b c' fl h
    rw [Cell.reduce_possibilities] at h
    by_cases hcv : c.value = v
    · rw [if_pos hcv] at h
      cases h
    · rw [if_neg hcv] at h
      by_cases hm : v ∈ c.possib
      · rw [if_pos hm] at h
        have hlt : (c.possib.erase v).length < c.possib.length := by
          rw [List.length_erase_of_mem hm]
          have := List.length_pos.mpr (List.ne_nil_of_mem hm)
          omega
        by_cases hl : ({ c with possib := c.possib.erase v } : Cell).possib.length = 1
        · rw [if_pos hl] at h
          simp only [Except.ok.injEq, Prod.mk.injEq, Cell.set_value] at h
          obtain ⟨hc, -⟩ := h
          rw [← hc]
          refine ⟨by simp, fun _ => Or.inr (by simp; omega)⟩
        · rw [if_neg hl] at h
          obtain ⟨h1, -⟩ := ih _ _ _ _ h
          simp only at h1
          exact ⟨by omega, fun _ => Or.inr (by omega)⟩
      · rw [if_neg hm] at h
        by_cases hl : c.possib.length = 1
        · rw [if_pos hl] at h
          simp only [Except.ok.injEq, Prod.mk.injEq, Cell.set_value] at h
          obtain ⟨hc, hfl⟩ := h
          rw [← hc]
          exact ⟨by simp, fun hf => Or.inl (by rw [hfl, hf])⟩
        · rw [if_neg hl] at h
          exact ih _ _ _ _ h

theorem sum_set_le : ∀ (l : List Nat) (i a : Nat), a ≤ l.getD i 0 →
    (l.set i a).sum ≤ l.sum := by
  intro l
  induction l with
  | nil => intro i a _; simp
  | cons x xs ih =>
    intro i a ha
    cases i with
    | zero =>
      simp only [List.set_cons_zero, List.sum_cons]
      have : a ≤ x := ha
      omega
    | succ i' =>
      simp only [List.set_cons_succ, List.sum_cons]
      have := ih i' a ha
      omega

theorem sum_set_lt : ∀ (l : List Nat) (i a : Nat), i < l.length → a < l.getD i 0 →
    (l.set i a).sum < l.sum := by
  intro l
  induction l with
  | nil => intro i a h _; simp at h
  | cons x xs ih =>
    intro i a hi ha
    cases i with
    | zero =>
      simp only [List.set_cons_zero, List.sum_cons]
      have : a < x := ha
      omega
    | succ i' =>
      simp only [List.set_cons_succ, List.sum_cons]
      have := ih i' a (by simp only [List.length_cons] at hi; omega) ha
      omega

theorem getD_of_length_le {α : Type} {l : List α} {i : Nat} (h : l.length ≤ i) (d : α) :
    l.getD i d = d := by
  rw [List.getD_eq_getElem?_getD, List.getElem?_eq_none h]
  rfl

/-- Total candidate count after a `setCell` with a cell holding no more
candidates than before. -/
theorem totalPossib_setCell_le {s : Sudoku} {p : Pos} {c' : Cell}
    (h : c'.possib.length ≤ (getCell s.grid p).possib.length) :
    totalPossib { s with grid := setCell s.grid p c' } ≤ totalPossib s := by
  show ((setCell s.grid p c').map fun row => (row.map fun c => c.possib.length).sum).sum ≤ _
  rw [setCell, List.map_set]
  apply sum_set_le
  rw [List.map_set]
  by_cases hb : p.1 < s.grid.length
  · rw [getD_map_of_lt _ hb _ []]
    apply sum_set_le
    by_cases hb2 : p.2 < (s.grid.getD p.1 []).length
    · rw [getD_map_of_lt _ hb2 _ dummyCell]
      exact h
    · have hlen2 : ((s.grid.getD p.1 []).map fun c => c.possib.length).length ≤ p.2 := by
        rw [List.length_map]
        omega
      rw [getD_of_length_le hlen2]
      have : (getCell s.grid p).possib.length = 0 := by
        rw [getCell, getD_of_length_le (by omega : (s.grid.getD p.1 []).length ≤ p.2)]
        rfl
      omega
  · have hlen1 : ((s.grid.map fun row => (row.map fun c => c.possib.length).sum).length ≤ p.1) := by
      rw [List.length_map]
      omega
    rw [getD_of_length_le hlen1]
    have hrow : s.grid.getD p.1 [] = [] := getD_of_length_le (by omega) []
    rw [hrow]
    simp

theorem totalPossib_setCell_lt {s : Sudoku} {p : Pos} {c' : Cell}
    (h : c'.possib.length < (getCell s.grid p).possib.length) :
    totalPossib { s with grid := setCell s.grid p c' } < totalPossib s := by
  have hb : p.1 < s.grid.length := by
    by_contra hc
    have : s.grid.getD p.1 [] = [] := getD_of_length_le (by omega) []
    rw [getCell, this] at h
    simp [dummyCell] at h
  have hb2 : p.2 < (s.grid.getD p.1 []).length := by
    by_contra hc
    rw [getCell, getD_of_length_le (by omega)] at h
    simp [dummyCell] at h
  show ((setCell s.grid p c').map fun row => (row.map fun c => c.possib.length).sum).sum < _
  rw [setCell, List.map_set]
  apply sum_set_lt _ _ _ (by rw [List.length_map]; omega)
  rw [List.map_set, getD_map_of_lt _ hb _ []]
  apply sum_set_lt _ _ _ (by rw [List.length_map]; omega)
  rw [getD_map_of_lt _ hb2 _ dummyCell]
  exact h

theorem reduce_cell_totalPossib {s : Sudoku} {p : Pos} {sp : Bool} {s1 : Sudoku} {flag : Bool}
    (h : reduce_cell s p sp = .ok (s1, flag)) :
    totalPossib s1 ≤ totalPossib s ∧ (flag = true → totalPossib s1 < totalPossib s) := by
  rw [reduce_cell] at h
  by_cases hs : (getCell s.grid p).is_solved = true
  · rw [if_pos hs] at h
    simp only [Except.ok.injEq, Prod.mk.injEq] at h
    obtain ⟨hc, hfl⟩ := h
    rw [← hc]
    exact ⟨Nat.le_refl _, fun hf => by rw [← hfl] at hf; cases hf⟩
  · rw [if_neg hs] at h
    rcases hrp : (getCell s.grid p).reduce_possibilities
        (constraining_values s.grid p.1 p.2 sp) false with e | ⟨c', fl⟩
    · rw [hrp] at h
      cases h
    · rw [hrp] at h
      simp only [Except.ok.injEq, Prod.mk.injEq] at h
      obtain ⟨hc, hfl⟩ := h
      obtain ⟨hlen, hstrict⟩ := reduce_possibilities_length _ _ _ _ _ hrp
      rw [← hc]
      constructor
      · exact totalPossib_setCell_le hlen
      · intro hf
        rcases hstrict (by rw [hfl, hf]) with habs | hlt
        · cases habs
        · exact totalPossib_setCell_lt hlt

theorem sweepAux_totalPossib (sp : Bool) :
    ∀ (fuel : Nat) (s : Sudoku) (i : Nat) (acc : Bool) (s' : Sudoku) (b : Bool),
    sweepAux sp fuel s i acc = .ok (s', b) →
    totalPossib s' ≤ totalPossib s ∧
    (b = true → acc = true ∨ totalPossib s' < totalPossib s) := by
  intro fuel
  induction fuel with
  | zero =>
    intro s i acc s' b h
    rw [sweepAux] at h
    simp only [Except.ok.injEq, Prod.mk.injEq] at h
    obtain ⟨hs, hb⟩ := h
    rw [← hs]
    exact ⟨Nat.le_refl _, fun hf => Or.inl (by rw [hb, hf])⟩
  | succ n ih =>
    intro s i acc s' b h
    rw [sweepAux] at h
    by_cases hi : i < s.unsolved_cells.length
    · rw [if_pos hi] at h
      dsimp only at h
      rcases hrc : reduce_cell s (s.unsolved_cells.getD i (0, 0)) sp with e | ⟨s1, flag⟩
      · rw [hrc] at h
        cases h
      · rw [hrc] at h
        dsimp only at h
        obtain ⟨hle, hstrict⟩ := reduce_cell_totalPossib hrc
        have hgrid : ∀ (s2 : Sudoku), s2.grid = s1.grid → totalPossib s2 = totalPossib s1 := by
          intro s2 hg
          rw [totalPossib, totalPossib, hg]
        obtain ⟨hle', hstrict'⟩ := ih _ _ _ s' b h
        have heq : totalPossib (if (getCell s1.grid (s.unsolved_cells.getD i (0, 0))).is_solved =
            true then Sudoku.mk s1.grid (removeFirstMatch s1.grid
            (s.unsolved_cells.getD i (0, 0)) s1.unsolved_cells) else s1) = totalPossib s1 := by
          split
          · rfl
          · rfl
        rw [heq] at hle' hstrict'
        refine ⟨Nat.le_trans hle' hle, ?_⟩
        intro hb
        rcases hstrict' hb with hacc | hlt
        · rcases Bool.or_eq_true_iff.mp hacc with h1 | h1
          · exact Or.inl h1
          · exact Or.inr (Nat.lt_of_le_of_lt hle' (hstrict h1))
        · exact Or.inr (Nat.lt_of_lt_of_le hlt hle)
    · rw [if_neg hi] at h
      simp only [Except.ok.injEq, Prod.mk.injEq] at h
      obtain ⟨hs, hb⟩ := h
      rw [← hs]
      exact ⟨Nat.le_refl _, fun hf => Or.inl (by rw [hb, hf])⟩

theorem sweep_totalPossib_strict {s : Sudoku} {sp : Bool} {s' : Sudoku}
    (h : sweep s sp = .ok (s', true)) : totalPossib s' < totalPossib s := by
  obtain ⟨-, hstrict⟩ := sweepAux_totalPossib sp _ s 0 false s' true h
  rcases hstrict rfl with habs | hlt
  · cases habs
  · exact hlt

/-- The fuel supplied by `reduce_cells` is irrelevant as long as it
exceeds the total candidate count: the `while reducing` loop stops on
its own within that many rounds. -/
theorem reduce_cells_aux_fuel_ge (sp : Bool) :
    ∀ (k f1 f2 : Nat) (s : Sudoku), totalPossib s ≤ k →
    totalPossib s < f1 → totalPossib s < f2 →
    reduce_cells_aux sp f1 s = reduce_cells_aux sp f2 s := by
  intro k
  induction k with
  | zero =>
    intro f1 f2 s hk h1 h2
    match f1, h1 with
    | f1' + 1, _ =>
    match f2, h2 with
    | f2' + 1, _ =>
    rw [reduce_cells_aux, reduce_cells_aux]
    by_cases hempty : s.unsolved_cells.length = 0
    · rw [if_pos hempty, if_pos hempty]
    · rw [if_neg hempty, if_neg hempty]
      rcases hsw : sweep s sp with e | ⟨s1, flag⟩
      · rfl
      · dsimp only
        by_cases hf : flag = true
        · exact absurd (sweep_totalPossib_strict (hf ▸ hsw)) (by omega)
        · rw [if_neg hf, if_neg hf]
  | succ m ih =>
    intro f1 f2 s hk h1 h2
    match f1, h1 with
    | f1' + 1, _ =>
    match f2, h2 with
    | f2' + 1, _ =>
    rw [reduce_cells_aux, reduce_cells_aux]
    by_cases hempty : s.unsolved_cells.length = 0
    · rw [if_pos hempty, if_pos hempty]
    · rw [if_neg hempty, if_neg hempty]
      rcases hsw : sweep s sp with e | ⟨s1, flag⟩
      · rfl
      · dsimp only
        by_cases hf : flag = true
        · rw [if_pos hf, if_pos hf]
          have hlt : totalPossib s1 < totalPossib s := sweep_totalPossib_strict (hf ▸ hsw)
          exact ih f1' f2' s1 (by omega) (by omega) (by omega)
        · rw [if_neg hf, if_neg hf]

theorem reduce_cells_aux_eq_reduce_cells {s : Sudoku} {sp : Bool} {f : Nat}
    (hf : totalPossib s < f) : reduce_cells_aux sp f s = reduce_cells s sp :=
  reduce_cells_aux_fuel_ge sp (totalPossib s) f (totalPossib s + 1) s
    (Nat.le_refl _) hf (by omega)

/-- The candidate loop never lengthens the frontier. -/
theorem bfTry_length_mono (n : Nat) (sp : Bool) (p : Pos)
    (hmono : ∀ u : Sudoku,
      (brute_force n u sp).1.unsolved_cells.length ≤ u.unsolved_cells.length) :
    ∀ (vals : List Nat) (t : Sudoku),
    (bfTry (brute_force n · sp) p sp t vals).1.unsolved_cells.length ≤
      t.unsolved_cells.length := by
  intro vals
  induction vals with
  | nil =>
    intro t
    rw [bfTry]
  | cons v vs ih =>
    intro t
    rw [bfTry]
    by_cases hchk : check_cell_possib t.grid p v sp = true
    · rw [if_pos hchk]
      rcases hbf : brute_force n
        { t with grid := setCell t.grid p ((getCell t.grid p).set_value v false) } sp
        with ⟨s2, b2⟩
      have hs2 : s2.unsolved_cells.length ≤ t.unsolved_cells.length := by
        have hm := hmono { t with grid := setCell t.grid p ((getCell t.grid p).set_value v false) }
        rw [hbf] at hm
        exact hm
      cases b2
      · dsimp only
        exact Nat.le_trans (ih _) hs2
      · dsimp only
        exact hs2
    · rw [if_neg hchk]
      exact ih t

/-- `__brute_force` never lengthens the frontier. -/
theorem brute_force_length_mono :
    ∀ (fuel : Nat) (s : Sudoku) (sp : Bool),
    (brute_force fuel s sp).1.unsolved_cells.length ≤ s.unsolved_cells.length := by
  intro fuel
  induction fuel with
  | zero =>
    intro s sp
    rw [brute_force]
  | succ n ih =>
    intro s sp
    rw [brute_force]
    rcases hms : s.unsolved_cells with _ | ⟨p, rest⟩
    · dsimp only
      simp [hms]
    · dsimp only
      rcases hbt : bfTry (brute_force n · sp) p sp { s with unsolved_cells := rest }
        (getCell s.grid p).possib with ⟨s'', b''⟩
      have hb := bfTry_length_mono n sp p (fun u => ih u sp) (getCell s.grid p).possib
        { s with unsolved_cells := rest }
      rw [hbt] at hb
      have hlen : s''.unsolved_cells.length ≤ rest.length := hb
      cases b''
      · dsimp only
        simp only [List.length_cons]
        omega
      · dsimp only
        simp only [List.length_cons]
        omega

/-- The fuel supplied to `__brute_force` is irrelevant once it exceeds
the frontier length: the recursion is at most one level per frontier
cell. -/
theorem brute_force_fuel_ge_aux :
    ∀ (k f1 f2 : Nat) (s : Sudoku) (sp : Bool),
    s.unsolved_cells.length ≤ k → k < f1 → k < f2 →
    brute_force f1 s sp = brute_force f2 s sp := by
  intro k
  induction k with
  | zero =>
    intro f1 f2 s sp hk h1 h2
    match f1, h1 with
    | f1' + 1, _ =>
    match f2, h2 with
    | f2' + 1, _ =>
    rw [brute_force, brute_force]
    rcases hms : s.unsolved_cells with _ | ⟨p, rest⟩
    · rfl
    · rw [hms] at hk
      simp at hk
  | succ m ih =>
    intro f1 f2 s sp hk h1 h2
    match f1, h1 with
    | f1' + 1, _ =>
    match f2, h2 with
    | f2' + 1, _ =>
    rw [brute_force, brute_force]
    rcases hms : s.unsolved_cells with _ | ⟨p, rest⟩
    · rfl
    · dsimp only
      have hrest : rest.length ≤ m := by
        rw [hms] at hk
        simp only [List.length_cons] at hk
        omega
      have hcong : ∀ (vals : List Nat) (t : Sudoku), t.unsolved_cells.length ≤ m →
          bfTry (brute_force f1' · sp) p sp t vals =
          bfTry (brute_force f2' · sp) p sp t vals := by
        intro vals
        induction vals with
        | nil =>
          intro t _
          rw [bfTry, bfTry]
        | cons v vs ihv =>
          intro t ht
          rw [bfTry, bfTry]
          by_cases hchk : check_cell_possib t.grid p v sp = true
          · rw [if_pos hchk, if_pos hchk]
            have heq : brute_force f1'
                { t with grid := setCell t.grid p ((getCell t.grid p).set_value v false) } sp =
                brute_force f2'
                { t with grid := setCell t.grid p ((getCell t.grid p).set_value v false) } sp :=
              ih f1' f2' _ sp ht (by omega) (by omega)
            rcases hbf2 : brute_force f2'
              { t with grid := setCell t.grid p ((getCell t.grid p).set_value v false) } sp
              with ⟨s2, b2⟩
            have hbf1 : brute_force f1'
                { t with grid := setCell t.grid p ((getCell t.grid p).set_value v false) } sp =
                (s2, b2) := by rw [heq, hbf2]
            rw [hbf1]
            cases b2
            · dsimp only
              have hs2 : s2.unsolved_cells.length ≤ m := by
                have := brute_force_length_mono f2'
                  { t with grid := setCell t.grid p ((getCell t.grid p).set_value v false) } sp
                rw [hbf2] at this
                exact Nat.le_trans this ht
              exact ihv _ hs2
            · rfl
          · rw [if_neg hchk, if_neg hchk]
            exact ihv t ht
      rcases hbt2 : bfTry (brute_force f2' · sp) p sp { s with unsolved_cells := rest }
        (getCell s.grid p).possib with ⟨s'', b''⟩
      have hbt1 : bfTry (brute_force f1' · sp) p sp { s with unsolved_cells := rest }
          (getCell s.grid p).possib = (s'', b'') := by
        rw [hcong _ _ hrest, hbt2]
      rw [hbt1]

theorem brute_force_fuel_ge {s : Sudoku} {sp : Bool} {f : Nat}
    (hf : s.unsolved_cells.length < f) :
    brute_force f s sp = brute_force (s.unsolved_cells.length + 1) s sp :=
  brute_force_fuel_ge_aux s.unsolved_cells.length f (s.unsolved_cells.length + 1) s sp
    (Nat.le_refl _) hf (by omega)

/-- The magic-square candidate loop never lengthens its worklist. -/
theorem magicTry_length_mono (n : Nat) (p : Pos)
    (hmono : ∀ (g : Grid) (ms : List Pos),
      (brute_force_magic_square n g ms).2.1.length ≤ ms.length) :
    ∀ (vals : List Nat) (g : Grid) (ms : List Pos),
    (magicTry (brute_force_magic_square n) p g ms vals).2.1.length ≤ ms.length := by
  intro vals
  induction vals with
  | nil =>
    intro g ms
    rw [magicTry]
  | cons v vs ih =>
    intro g ms
    rw [magicTry]
    by_cases hchk : (check_magic_square_state g && check_cell_possib g p v true) = true
    · rw [if_pos hchk]
      rcases hbf : brute_force_magic_square n
        (setCell g p ((getCell g p).set_value v false)) ms with ⟨g2, ms2, b2⟩
      have hms2 : ms2.length ≤ ms.length := by
        have hm := hmono (setCell g p ((getCell g p).set_value v false)) ms
        rw [hbf] at hm
        exact hm
      cases b2
      · dsimp only
        exact Nat.le_trans (ih _ _) hms2
      · dsimp only
        exact hms2
    · rw [if_neg hchk]
      exact ih g ms

theorem brute_force_magic_length_mono :
    ∀ (fuel : Nat) (g : Grid) (ms : List Pos),
    (brute_force_magic_square fuel g ms).2.1.length ≤ ms.length := by
  intro fuel
  induction fuel with
  | zero =>
    intro g ms
    rw [brute_force_magic_square]
  | succ n ih =>
    intro g ms
    rcases hms : ms with _ | ⟨p, rest⟩
    · rw [brute_force_magic_square]
    · rw [brute_force_magic_square]
      rcases hbt : magicTry (brute_force_magic_square n) p g rest (getCell g p).possib
        with ⟨g'', ms'', b''⟩
      have hb := magicTry_length_mono n p (fun g1 ms1 => ih g1 ms1) (getCell g p).possib g rest
      rw [hbt] at hb
      have hlen : ms''.length ≤ rest.length := hb
      cases b''
      · dsimp only
        simp only [List.length_cons]
        omega
      · dsimp only
        simp only [List.length_cons]
        omega

theorem brute_force_magic_fuel_ge_aux :
    ∀ (k f1 f2 : Nat) (g : Grid) (ms : List Pos),
    ms.length ≤ k → k < f1 → k < f2 →
    brute_force_magic_square f1 g ms = brute_force_magic_square f2 g ms := by
  intro k
  induction k with
  | zero =>
    intro f1 f2 g ms hk h1 h2
    match f1, h1 with
    | f1' + 1, _ =>
    match f2, h2 with
    | f2' + 1, _ =>
    rcases hms : ms with _ | ⟨p, rest⟩
    · rfl
    · rw [hms] at hk
      simp at hk
  | succ m ih =>
    intro f1 f2 g ms hk h1 h2
    match f1, h1 with
    | f1' + 1, _ =>
    match f2, h2 with
    | f2' + 1, _ =>
    rcases hms2 : ms with _ | ⟨p, rest⟩
    · rfl
    · rw [brute_force_magic_square, brute_force_magic_square]
      have hrest : rest.length ≤ m := by
        rw [hms2] at hk
        simp only [List.length_cons] at hk
        omega
      have hcong : ∀ (vals : List Nat) (g1 : Grid) (ms1 : List Pos), ms1.length ≤ m →
          magicTry (brute_force_magic_square f1') p g1 ms1 vals =
          magicTry (brute_force_magic_square f2') p g1 ms1 vals := by
        intro vals
        induction vals with
        | nil =>
          intro g1 ms1 _
          rw [magicTry, magicTry]
        | cons v vs ihv =>
          intro g1 ms1 hms1
          rw [magicTry, magicTry]
          by_cases hchk : (check_magic_square_state g1 && check_cell_possib g1 p v true) = true
          · rw [if_pos hchk, if_pos hchk]
            have heq : brute_force_magic_square f1'
                (setCell g1 p ((getCell g1 p).set_value v false)) ms1 =
                brute_force_magic_square f2'
                (setCell g1 p ((getCell g1 p).set_value v false)) ms1 :=
              ih f1' f2' _ ms1 hms1 (by omega) (by omega)
            rcases hbf2 : brute_force_magic_square f2'
              (setCell g1 p ((getCell g1 p).set_value v false)) ms1 with ⟨g2, ms2, b2⟩
            have hbf1 : brute_force_magic_square f1'
                (setCell g1 p ((getCell g1 p).set_value v false)) ms1 = (g2, ms2, b2) := by
              rw [heq, hbf2]
            rw [hbf1]
            cases b2
            · dsimp only
              have hms2 : ms2.length ≤ m := by
                have := brute_force_magic_length_mono f2'
                  (setCell g1 p ((getCell g1 p).set_value v false)) ms1
                rw [hbf2] at this
                exact Nat.le_trans this hms1
              exact ihv _ _ hms2
            · rfl
          · rw [if_neg hchk, if_neg hchk]
            exact ihv g1 ms1 hms1
      rcases hbt2 : magicTry (brute_force_magic_square f2') p g rest (getCell g p).possib
        with ⟨g'', ms'', b''⟩
      have hbt1 : magicTry (brute_force_magic_square f1') p g rest (getCell g p).possib =
          (g'', ms'', b'') := by
        rw [hcong _ _ _ hrest, hbt2]
      rw [hbt1]

theorem brute_force_magic_fuel_ge {g : Grid} {ms : List Pos} {f : Nat}
    (hf : ms.length < f) :
    brute_force_magic_square f g ms = brute_force_magic_square (ms.length + 1) g ms :=
  brute_force_magic_fuel_ge_aux ms.length f (ms.length + 1) g ms (Nat.le_refl _) hf (by omega)

theorem initSudoku_frontier_le_81 (l : List Nat) :
    (initSudoku l).unsolved_cells.length ≤ 81 := by
  have h1 : (initSudoku l).unsolved_cells.length ≤ allPositions.length := by
    show (allPositions.filter fun p => !(getCell (parse_grid l) p).is_solved).length ≤ _
    exact List.length_filter_le _ _
  have h2 : allPositions.length = 81 := by decide
  omega

theorem midSquare_filter_le_9 (g : Grid) :
    (midSquarePositions.filter fun p => !(getCell g p).is_solved).length ≤ 9 :=
  Nat.le_trans (List.length_filter_le _ _) (by decide)

/-- C9: `solve` terminates on every input.  (1) a sweep that reports a
reduction strictly decreases the total candidate count, so (2) the
propagation loop is insensitive to any fuel beyond that count — it
stops by itself; (3)/(4) both backtracking recursions are insensitive
to any fuel beyond their worklist length — one recursion level per
cell; and (5)/(6) those worklists hold at most 81 resp. 9 cells. -/
theorem c9_termination :
    (∀ (s : Sudoku) (sp : Bool) (s' : Sudoku), sweep s sp = .ok (s', true) →
      totalPossib s' < totalPossib s) ∧
    (∀ (s : Sudoku) (sp : Bool) (f : Nat), totalPossib s < f →
      reduce_cells_aux sp f s = reduce_cells s sp) ∧
    (∀ (s : Sudoku) (sp : Bool) (f : Nat), s.unsolved_cells.length < f →
      brute_force f s sp = brute_force (s.unsolved_cells.length + 1) s sp) ∧
    (∀ (g : Grid) (ms : List Pos) (f : Nat), ms.length < f →
      brute_force_magic_square f g ms = brute_force_magic_square (ms.length + 1) g ms) ∧
    (∀ l : List Nat, (initSudoku l).unsolved_cells.length ≤ 81) ∧
    (∀ g : Grid, (midSquarePositions.filter fun p => !(getCell g p).is_solved).length ≤ 9) :=
  ⟨fun _ _ _ h => sweep_totalPossib_strict h,
   fun _ _ _ hf => reduce_cells_aux_eq_reduce_cells hf,
   fun _ _ _ hf => brute_force_fuel_ge hf,
   fun _ _ _ hf => brute_force_magic_fuel_ge hf,
   initSudoku_frontier_le_81,
   midSquare_filter_le_9⟩

/-- `solGrid` with `(0,0)` blanked: one sweep solves the cell back to 8
and reports a reduction. -/
def c9Grid : List Nat :=
  [0,4,3,5,6,7,2,1,9,
   2,7,5,9,1,3,8,4,6,
   6,1,9,4,2,8,3,7,5,
   3,8,4,6,7,2,9,5,1,
   7,2,6,1,5,9,4,8,3,
   9,5,1,8,3,4,6,2,7,
   5,3,7,2,8,6,1,9,4,
   4,6,2,7,9,1,5,3,8,
   1,9,8,3,4,5,7,6,2]

/-! ## C1: validity of fully solved results -/

/-- Propositional form of `conflictFreeB`. -/
def conflictFree (g : Grid) : Prop :=
  ∀ p q : Pos, p.1 < 9 → p.2 < 9 → q.1 < 9 → q.2 < 9 → p ≠ q → sameUnit p q →
  (getCell g p).is_solved = true → (getCell g q).is_solved = true →
  (getCell g p).value ≠ (getCell g q).value

theorem conflictFreeB_iff {g : Grid} : conflictFreeB g = true ↔ conflictFree g := by
  rw [conflictFreeB, conflictFree]
  simp only [List.all_eq_true, decide_eq_true_eq]
  constructor
  · intro h p q hp1 hp2 hq1 hq2
    exact h p (mem_allPositions.mpr ⟨hp1, hp2⟩) q (mem_allPositions.mpr ⟨hq1, hq2⟩)
  · intro h p hp q hq
    obtain ⟨hp1, hp2⟩ := mem_allPositions.mp hp
    obtain ⟨hq1, hq2⟩ := mem_allPositions.mp hq
    exact h p q hp1 hp2 hq1 hq2

/-- The solved value of any classic peer of `p` appears among `p`'s
constraining values (whether or not `special` adds more). -/
theorem peer_value_mem_constraining {g : Grid} {p q : Pos} (sp : Bool)
    (hp2 : p.2 < 9) (hq1 : q.1 < 9) (hq2 : q.2 < 9)
    (hne : q ≠ p) (hsu : sameUnit p q) (hsol : (getCell g q).is_solved = true) :
    (getCell g q).value ∈ constraining_values g p.1 p.2 sp := by
  rw [constraining_values, mem_mkGroup]
  simp only [List.mem_append]
  rcases hsu with hrow | hcol | hbox
  · left; left; left
    rw [rowConstraining]
    simp only [List.mem_map, List.mem_filter, List.mem_range, decide_eq_true_eq]
    refine ⟨q.2, ⟨hq2, ?_, ?_⟩, ?_⟩
    · intro hc
      exact hne (Prod.ext hrow.symm hc)
    · rw [show ((p.1, q.2) : Pos) = q from Prod.ext hrow rfl]
      exact hsol
    · rw [show ((p.1, q.2) : Pos) = q from Prod.ext hrow rfl]
  · left; left; right
    rw [colConstraining]
    simp only [List.mem_map, List.mem_filter, List.mem_range, decide_eq_true_eq]
    refine ⟨q.1, ⟨hq1, ?_, ?_⟩, ?_⟩
    · intro hc
      exact hne (Prod.ext hc hcol.symm)
    · rw [show ((q.1, p.2) : Pos) = q from Prod.ext rfl hcol]
      exact hsol
    · rw [show ((q.1, p.2) : Pos) = q from Prod.ext rfl hcol]
  · left; right
    rw [squareConstraining]
    simp only [List.mem_map, List.mem_filter, List.mem_flatten, List.mem_range,
      decide_eq_true_eq]
    refine ⟨q, ⟨?_, ?_, hsol⟩, rfl⟩
    · refine ⟨(List.range 3).map fun j => (p.1 / 3 * 3 + q.1 % 3, p.2 / 3 * 3 + j), ?_, ?_⟩
      · exact ⟨q.1 % 3, by omega, rfl⟩
      · simp only [List.mem_map, List.mem_range]
        refine ⟨q.2 % 3, by omega, ?_⟩
        have e1 : p.1 / 3 * 3 + q.1 % 3 = q.1 := by omega
        have e2 : p.2 / 3 * 3 + q.2 % 3 = q.2 := by omega
        rw [e1, e2]
    · intro hc
      exact hne (Prod.ext hc.1 hc.2)

theorem check_true_notin {g : Grid} {p : Pos} {v : Nat} {sp : Bool}
    (h : check_cell_possib g p v sp = true) : v ∉ constraining_values g p.1 p.2 sp := by
  rw [check_cell_possib] at h
  intro hmem
  rw [Bool.not_eq_true'] at h
  have : (constraining_values g p.1 p.2 sp).contains v = true :=
    List.elem_iff.mpr hmem
  rw [this] at h
  cases h

/-- Assigning a value that passes `__check_cell_possib` preserves
pairwise conflict-freedom of the solved cells. -/
theorem conflictFree_after_assign {g : Grid} {p : Pos} {v : Nat} {sp : Bool}
    (hwf : wfGrid g) (hp1 : p.1 < 9) (hp2 : p.2 < 9)
    (hcf : conflictFree g) (hchk : check_cell_possib g p v sp = true) :
    conflictFree (setCell g p ((getCell g p).set_value v false)) := by
  have hnew : getCell (setCell g p ((getCell g p).set_value v false)) p =
      (getCell g p).set_value v false := getCell_setCell_self hwf hp1 hp2
  have hold : ∀ q : Pos, q ≠ p →
      getCell (setCell g p ((getCell g p).set_value v false)) q = getCell g q :=
    fun q hq => getCell_setCell_ne hq
  have hvq : ∀ q : Pos, q.1 < 9 → q.2 < 9 → q ≠ p → sameUnit p q →
      (getCell g q).is_solved = true → (getCell g q).value ≠ v := by
    intro q hq1 hq2 hqp hsu hsol
    intro heq
    apply check_true_notin hchk
    rw [← heq]
    exact peer_value_mem_constraining sp hp2 hq1 hq2 hqp hsu hsol
  intro a b ha1 ha2 hb1 hb2 hab hsu hsa hsb
  by_cases hap : a = p
  · subst hap
    have hbp : b ≠ a := fun hc => hab hc.symm
    rw [hnew] at hsa ⊢
    rw [hold b hbp] at hsb ⊢
    show ¬((getCell g a).set_value v false).value = (getCell g b).value
    show ¬v = (getCell g b).value
    intro heq
    exact hvq b hb1 hb2 hbp hsu hsb heq.symm
  · by_cases hbp : b = p
    · subst hbp
      rw [hold a hap] at hsa ⊢
      rw [hnew] at hsb ⊢
      show ¬(getCell g a).value = ((getCell g b).set_value v false).value
      show ¬(getCell g a).value = v
      have hsu' : sameUnit b a := by
        rcases hsu with h | h | h
        · exact Or.inl h.symm
        · exact Or.inr (Or.inl h.symm)
        · exact Or.inr (Or.inr ⟨h.1.symm, h.2.symm⟩)
      exact hvq a ha1 ha2 hap hsu' hsa
    · rw [hold a hap] at hsa ⊢
      rw [hold b hbp] at hsb ⊢
      exact hcf a b ha1 ha2 hb1 hb2 hab hsu hsa hsb

/-- Writing to a cell either leaves the grid unchanged (out of bounds)
or makes the written cell readable back. -/
theorem getCell_setCell_cases (g : Grid) (p : Pos) (c' : Cell) :
    setCell g p c' = g ∨ getCell (setCell g p c') p = c' := by
  by_cases h1 : p.1 < g.length
  · by_cases h2 : p.2 < (g.getD p.1 []).length
    · right
      rw [getCell, setCell, getD_set_self' h1, getD_set_self' h2]
    · left
      rw [setCell, List.set_eq_of_length_le (Nat.le_of_not_lt h2), set_getD_self]
  · left
    rw [setCell, List.set_eq_of_length_le (Nat.le_of_not_lt h1)]

/-- Clearing a cell (undo) preserves conflict-freedom. -/
theorem conflictFree_after_clear {g : Grid} {p : Pos} {c' : Cell}
    (hc' : c'.is_solved = false) (hcf : conflictFree g) :
    conflictFree (setCell g p c') := by
  rcases getCell_setCell_cases g p c' with heq | hget
  · rw [heq]
    exact hcf
  · intro a b ha1 ha2 hb1 hb2 hab hsu hsa hsb
    by_cases hap : a = p
    · subst hap
      rw [hget] at hsa
      rw [hsa] at hc'
      cases hc'
    · by_cases hbp : b = p
      · subst hbp
        rw [hget] at hsb
        rw [hsb] at hc'
        cases hc'
      · rw [getCell_setCell_ne hap] at hsa ⊢
        rw [getCell_setCell_ne hbp] at hsb ⊢
        exact hcf a b ha1 ha2 hb1 hb2 hab hsu hsa hsb

theorem cell_clear_unsolved (c : Cell) : ({ c with value := 0 } : Cell).is_solved = false := by
  rw [Cell.is_solved]
  simp

/-- The backtracking invariant: well-formed grid, in-bounds frontier
positions, conflict-free solved cells. -/
def bfInv (s : Sudoku) : Prop :=
  wfGrid s.grid ∧ (∀ p ∈ s.unsolved_cells, p.1 < 9 ∧ p.2 < 9) ∧ conflictFree s.grid

/-- The candidate loop of `__brute_force` preserves the invariant: every
accepted value passed `__check_cell_possib`, every undo writes 0. -/
theorem bfTry_inv (n : Nat) (sp : Bool) (p : Pos)
    (hrec : ∀ (t t' : Sudoku) (b' : Bool), bfInv t → brute_force n t sp = (t', b') → bfInv t')
    (h1 : p.1 < 9) (h2 : p.2 < 9) :
    ∀ (vals : List Nat) (t s' : Sudoku) (b : Bool),
    bfInv t → bfTry (brute_force n · sp) p sp t vals = (s', b) → bfInv s' := by
  intro vals
  induction vals with
  | nil =>
    intro t s' b hinv h
    rw [bfTry] at h
    cases h
    exact hinv
  | cons v vs ih =>
    intro t s' b hinv h
    rw [bfTry] at h
    by_cases hchk : check_cell_possib t.grid p v sp = true
    · rw [if_pos hchk] at h
      rcases hbf : brute_force n
        { t with grid := setCell t.grid p ((getCell t.grid p).set_value v false) } sp
        with ⟨s2, b2⟩
      rw [hbf] at h
      have hinv2 : bfInv s2 :=
        hrec { t with grid := setCell t.grid p ((getCell t.grid p).set_value v false) } s2 b2
          ⟨wf_setCell hinv.1 h1 _, hinv.2.1,
            conflictFree_after_assign hinv.1 h1 h2 hinv.2.2 hchk⟩ hbf
      cases b2 with
      | true =>
        dsimp only at h
        cases h
        exact hinv2
      | false =>
        dsimp only at h
        have hinv3 : bfInv { s2 with
            grid := setCell s2.grid p { getCell s2.grid p with value := 0 } } :=
          ⟨wf_setCell hinv2.1 h1 _, hinv2.2.1,
            conflictFree_after_clear (cell_clear_unsolved _) hinv2.2.2⟩
        exact ih _ s' b hinv3 h
    · rw [if_neg hchk] at h
      exact ih t s' b hinv h

/-- `__brute_force` preserves the invariant, whatever it returns. -/
theorem brute_force_inv :
    ∀ (fuel : Nat) (s : Sudoku) (sp : Bool) (s' : Sudoku) (b : Bool),
    bfInv s → brute_force fuel s sp = (s', b) → bfInv s' := by
  intro fuel
  induction fuel with
  | zero =>
    intro s sp s' b hinv h
    rw [brute_force] at h
    cases h
    exact hinv
  | succ n ih =>
    intro s sp s' b hinv h
    rw [brute_force] at h
    match hms : s.unsolved_cells with
    | [] =>
      rw [hms] at h
      dsimp only at h
      cases h
      exact hinv
    | p :: rest =>
      rw [hms] at h
      dsimp only at h
      have hp := hinv.2.1 p (by rw [hms]; exact List.mem_cons_self _ _)
      have hinvt : bfInv { s with unsolved_cells := rest } :=
        ⟨hinv.1, fun q hq => hinv.2.1 q (by rw [hms]; exact List.mem_cons_of_mem _ hq),
          hinv.2.2⟩
      match hbt : bfTry (brute_force n · sp) p sp { s with unsolved_cells := rest }
          (getCell s.grid p).possib with
      | (s'', true) =>
        rw [hbt] at h
        have hinv'' : bfInv s'' :=
          bfTry_inv n sp p (fun t t' b' => ih t sp t' b') hp.1 hp.2 _ _ _ _ hinvt hbt
        cases h
        exact hinv''
      | (s'', false) =>
        rw [hbt] at h
        have hinv'' : bfInv s'' :=
          bfTry_inv n sp p (fun t t' b' => ih t sp t' b') hp.1 hp.2 _ _ _ _ hinvt hbt
        cases h
        refine ⟨hinv''.1, ?_, hinv''.2.2⟩
        intro q hq
        rcases List.mem_cons.mp hq with rfl | hq'
        · exact hp
        · exact hinv''.2.1 q hq'

/-- A fresh `Sudoku` satisfies exact frontier tracking. -/
theorem initSudoku_frontierOK (l : List Nat) : frontierOK (initSudoku l) := by
  have hnd : allPositions.Nodup := by decide
  have hu : (initSudoku l).unsolved_cells =
      allPositions.filter fun q => !(getCell (parse_grid l) q).is_solved := rfl
  have hg : (initSudoku l).grid = parse_grid l := rfl
  refine ⟨?_, ?_, ?_⟩
  · rw [hu]
    exact hnd.filter _
  · intro p hp
    rw [hu] at hp
    exact mem_allPositions.mp (List.mem_of_mem_filter hp)
  · intro p hp
    rw [hu, hg, List.mem_filter]
    constructor
    · rintro ⟨_, hsol⟩
      rw [Bool.not_eq_true'] at hsol
      exact cell_value_zero_of_unsolved hsol
    · intro h0
      refine ⟨hp, ?_⟩
      rw [Bool.not_eq_true', Cell.is_solved, h0]
      simp

theorem mem_digits {v : Nat} : v ∈ digits ↔ 1 ≤ v ∧ v ≤ 9 := by
  rw [digits]
  simp only [List.mem_map, List.mem_range]
  constructor
  · rintro ⟨k, hk, rfl⟩
    omega
  · rintro ⟨h1, h9⟩
    exact ⟨v - 1, by omega, by omega⟩

/-- A duplicate-free list of nine digits 1–9 contains each digit exactly
once. -/
theorem exactlyOnce_of_nodup {l : List Nat} (hn : l.Nodup) (hsub : l ⊆ digits)
    (hlen : l.length = 9) : exactlyOnceB l = true := by
  have hperm : List.Perm l digits := (hn.subperm hsub).perm_of_length_le (by rw [hlen]; decide)
  rw [exactlyOnceB, List.all_eq_true]
  intro v hv
  rw [beq_iff_eq, hperm.count_eq]
  exact List.count_eq_one_of_mem (by decide) hv

/-- Nine distinct, pairwise same-unit positions of a fully solved
conflict-free grid carry each digit exactly once. -/
theorem exactlyOnce_map_positions {g : Grid} (hs : fullySolvedB g = true)
    (hcf : conflictFree g) (f : Nat → Pos)
    (hb1 : ∀ k, k < 9 → (f k).1 < 9) (hb2 : ∀ k, k < 9 → (f k).2 < 9)
    (hinj : ∀ x, x < 9 → ∀ y, y < 9 → f x = f y → x = y)
    (hsu : ∀ x, x < 9 → ∀ y, y < 9 → x ≠ y → sameUnit (f x) (f y)) :
    exactlyOnceB ((List.range 9).map fun k => (getCell g (f k)).value) = true := by
  refine exactlyOnce_of_nodup ?_ ?_ (by simp)
  · refine List.Nodup.map_on ?_ (List.nodup_range 9)
    intro x hx y hy hxy
    rw [List.mem_range] at hx hy
    by_contra hne
    exact hcf (f x) (f y) (hb1 x hx) (hb2 x hx) (hb1 y hy) (hb2 y hy)
      (fun hc => hne (hinj x hx y hy hc)) (hsu x hx y hy hne)
      (fullySolved_is_solved hs (hb1 x hx) (hb2 x hx))
      (fullySolved_is_solved hs (hb1 y hy) (hb2 y hy)) hxy
  · intro v hv
    obtain ⟨k, hk, rfl⟩ := List.mem_map.mp hv
    rw [List.mem_range] at hk
    exact mem_digits.mpr (fullySolved_value hs (hb1 k hk) (hb2 k hk))

/-- A fully solved, conflict-free grid is a valid sudoku. -/
theorem valid_of_solved_conflictFree {g : Grid} (hs : fullySolvedB g = true)
    (hcf : conflictFree g) : validB g = true := by
  rw [validB]
  simp only [Bool.and_eq_true, List.all_eq_true, List.mem_range]
  refine ⟨⟨?_, ?_⟩, ?_⟩
  · intro r hr
    exact exactlyOnce_map_positions hs hcf (fun c => (r, c))
      (fun k _ => hr) (fun k hk => hk)
      (fun x _ y _ hc => congrArg Prod.snd hc)
      (fun x _ y _ _ => Or.inl rfl)
  · intro c hc
    exact exactlyOnce_map_positions hs hcf (fun r => (r, c))
      (fun k hk => hk) (fun k _ => hc)
      (fun x _ y _ h => congrArg Prod.fst h)
      (fun x _ y _ _ => Or.inr (Or.inl rfl))
  · intro b hb
    refine exactlyOnce_map_positions hs hcf
      (fun k => (b / 3 * 3 + k / 3, b % 3 * 3 + k % 3)) ?_ ?_ ?_ ?_
    · intro k hk
      show b / 3 * 3 + k / 3 < 9
      omega
    · intro k hk
      show b % 3 * 3 + k % 3 < 9
      omega
    · intro x hx y hy hc
      have e1 : b / 3 * 3 + x / 3 = b / 3 * 3 + y / 3 := congrArg Prod.fst hc
      have e2 : b % 3 * 3 + x % 3 = b % 3 * 3 + y % 3 := congrArg Prod.snd hc
      omega
    · intro x hx y hy hne
      refine Or.inr (Or.inr ⟨?_, ?_⟩)
      · show (b / 3 * 3 + x / 3) / 3 = (b / 3 * 3 + y / 3) / 3
        omega
      · show (b % 3 * 3 + x % 3) / 3 = (b % 3 * 3 + y % 3) / 3
        omega

/-- C1 (amended): after `solve(special=False)`, provided the grid the
propagation phase produced is still conflict-free — wipeout commits can
break this, see the counterexample — a fully solved result is a valid
sudoku: every row, column and 3×3 box holds each of 1–9 exactly once. -/
theorem c1_solved_result_valid (l : List Nat) (s1 s' : Sudoku)
    (hred : reduce_cells (initSudoku l) false = .ok s1)
    (hcf : conflictFreeB s1.grid = true)
    (hsolve : solve l false = .ok s')
    (hfull : fullySolvedB s'.grid = true) :
    validB s'.grid = true := by
  rw [solve] at hsolve
  rw [hred] at hsolve
  dsimp only at hsolve
  simp only [Bool.false_eq_true, if_false, Except.ok.injEq] at hsolve
  obtain ⟨hfo1, hwf1⟩ := reduce_cells_aux_frontierOK false _ (initSudoku l) s1
    (wf_parse l) (initSudoku_frontierOK l) hred
  rcases hbf : brute_force (s1.unsolved_cells.length + 1) s1 false with ⟨s2, b⟩
  rw [hbf] at hsolve
  dsimp only at hsolve
  have hinv2 : bfInv s2 := brute_force_inv _ s1 false s2 b
    ⟨hwf1, hfo1.2.1, conflictFreeB_iff.mp hcf⟩ hbf
  subst hsolve
  exact valid_of_solved_conflictFree hfull hinv2.2.2

theorem c1_witness :
    reduce_cells (initSudoku solGrid) false = .ok (initSudoku solGrid) ∧
    conflictFreeB (initSudoku solGrid).grid = true ∧
    solve solGrid false = .ok (initSudoku solGrid) ∧
    fullySolvedB (initSudoku solGrid).grid = true ∧
    validB (initSudoku solGrid).grid = true :=
  ⟨by decide, by decide, by decide, by decide,
   c1_solved_result_valid solGrid (initSudoku solGrid) (initSudoku solGrid)
     (by decide) (by decide) (by decide) (by decide)⟩

/-- C1 counterexample: `wipeGrid` carries no two equal pre-supplied
values in any shared row, column or box, yet `solve(special=False)`
returns a fully solved grid that is NOT valid — wiped-out candidate
domains make propagation silently commit duplicate values. -/
theorem c1_counterexample :
    conflictFreeB (initSudoku wipeGrid).grid = true ∧
    ((solve wipeGrid false).toOption.elim false fun s' =>
      fullySolvedB s'.grid && !validB s'.grid) = true :=
  ⟨by decide, by decide⟩

theorem c9_witness :
    totalPossib (Sudoku.mk (setCell (parse_grid c9Grid) (0, 0) (Cell.mk 0 0 8 [])) []) <
      totalPossib (initSudoku c9Grid) ∧
    reduce_cells_aux false 1000 (initSudoku solGrid) = reduce_cells (initSudoku solGrid) false ∧
    brute_force 5 (initSudoku solGrid) false =
      brute_force ((initSudoku solGrid).unsolved_cells.length + 1) (initSudoku solGrid) false ∧
    brute_force_magic_square 7 (initSudoku solGrid).grid [] =
      brute_force_magic_square (([] : List Pos).length + 1) (initSudoku solGrid).grid [] ∧
    (initSudoku solGrid).unsolved_cells.length ≤ 81 ∧
    (midSquarePositions.filter fun p =>
      !(getCell (initSudoku solGrid).grid p).is_solved).length ≤ 9 :=
  ⟨c9_termination.1 (initSudoku c9Grid) false
      (Sudoku.mk (setCell (parse_grid c9Grid) (0, 0) (Cell.mk 0 0 8 [])) []) (by decide),
   c9_termination.2.1 (initSudoku solGrid) false 1000 (by decide),
   c9_termination.2.2.1 (initSudoku solGrid) false 5 (by decide),
   c9_termination.2.2.2.1 (initSudoku solGrid).grid [] 7 (by decide),
   c9_termination.2.2.2.2.1 solGrid,
   c9_termination.2.2.2.2.2 (initSudoku solGrid).grid⟩

end SudokuPy
